import Mathlib

/-!
# Verification of the ralph-cli iteration supervisor against its specification

This file is a shallow embedding, in Lean 4, of the core components of the
ralph-cli Go program:

* the PRD task list (`internal/prd`): stories, pending selection, completion;
* the Go standard library routine `sort.Slice` (pattern-defeating quicksort,
  as implemented since Go 1.19 in `sort/zsortfunc.go`), which `PRD.NextStory`
  calls on the pending stories — embedded faithfully because the selection of
  the next story depends on it;
* the PID file controller (`internal/pidfile`);
* the agent runner (`internal/agent`);
* the hook dispatcher (`internal/hooks`);
* the iteration supervisor (`internal/loop`).

Effectful boundaries (file system reads, process liveness, subprocess
execution outcomes, context cancellation) are modelled as explicit oracle
values passed to the embedded functions; the control flow operating on those
outcomes is translated branch by branch from the Go source.  Machine `int`s
are modelled as `Int` (the Go code never overflows in the modelled paths),
wall-clock durations are not modelled (no claim mentions them), and `error`
values are modelled as `String` messages or small inductives mirroring the
sentinel errors of the source.
-/

namespace Ralph

/-- Go `error` values, modelled by their message text. -/
abbrev GoError := String

/-! ## PRD data model (`internal/prd/prd.go`) -/

/-- `prd.UserStory`: one unit of checklist work. -/
structure UserStory where
  id : String
  title : String
  description : String
  acceptanceCriteria : List String
  priority : Int
  passes : Bool
  notes : String
  deriving DecidableEq

/-- Default story value, used for in-bounds indexing in the sort embedding
(the Go code only ever indexes in bounds). -/
def dStory : UserStory :=
  { id := "", title := "", description := "", acceptanceCriteria := []
    priority := 0, passes := false, notes := "" }

/-- `prd.PRD`: the Product Requirements Document. -/
structure PRD where
  branchName : String
  userStories : List UserStory
  deriving DecidableEq

/-- `PRD.PendingStories`: all stories whose `Passes` flag is false, in list
order. -/
def PRD.pendingStories (p : PRD) : List UserStory :=
  p.userStories.filter (fun s => !s.passes)

/-- `PRD.CompletedStories`: all stories whose `Passes` flag is true. -/
def PRD.completedStories (p : PRD) : List UserStory :=
  p.userStories.filter (fun s => s.passes)

/-- `PRD.IsComplete`: the Go loop returns `false` as soon as a story with
`!s.Passes` is seen, and otherwise returns `len(p.UserStories) > 0`. -/
def PRD.isComplete (p : PRD) : Bool :=
  if p.userStories.any (fun s => !s.passes) then false
  else decide (0 < p.userStories.length)

/-- `PRD.Stats`: `(total, completed, pending)` counts. -/
def PRD.stats (p : PRD) : Nat × Nat × Nat :=
  (p.userStories.length,
   (p.userStories.filter (fun s => s.passes)).length,
   (p.userStories.filter (fun s => !s.passes)).length)

/-! ## The Go standard library sort used by `PRD.NextStory`

`NextStory` runs `sort.Slice(pending, func(i, j int) bool { return
pending[i].Priority < pending[j].Priority })` and returns `&pending[0]`.
`sort.Slice` is *not* a stable sort: since Go 1.19 it is the
pattern-defeating quicksort of `sort/zsortfunc.go`, entered through
`pdqsort_func(data, 0, length, bits.Len(uint(length)))`.  The embedding
below follows that file function by function.  Loops are given explicit
fuel arguments (first `Nat` argument); every fuel value passed at a call
site strictly dominates the number of iterations the corresponding Go loop
can make, so the fuel never runs out on the paths the program takes. -/

/-- The comparison closure passed to `sort.Slice` by `NextStory`:
`data.Less(i, j)` is `l[i].Priority < l[j].Priority`. -/
def lessB (l : List UserStory) (i j : Nat) : Bool :=
  decide ((l.getD i dStory).priority < (l.getD j dStory).priority)

/-- `data.Swap(i, j)`, on the list representation of the slice.  Out-of-range
indices leave the list unchanged (the Go code always swaps in range). -/
def lswap (l : List UserStory) (i j : Nat) : List UserStory :=
  match l.get? i, l.get? j with
  | some x, some y => (l.set i y).set j x
  | _, _ => l

/-- `insertionSort_func` inner loop: `for j := i; j > a && data.Less(j, j-1);
j-- { data.Swap(j, j-1) }`. -/
def isortInner (a : Nat) : List UserStory → Nat → List UserStory
  | l, 0 => l
  | l, j+1 =>
    if a ≤ j ∧ lessB l (j+1) j then isortInner a (lswap l (j+1) j) j else l

/-- `insertionSort_func` outer loop: `for i := a + 1; i < b; i++`.  The first
argument is fuel (any value `≥ b - i` gives the loop semantics). -/
def isortFrom (a b : Nat) : Nat → Nat → List UserStory → List UserStory
  | 0, _, l => l
  | fuel+1, i, l =>
    if i < b then isortFrom a b fuel (i+1) (isortInner a l i) else l

/-- `insertionSort_func(data, a, b)`: sorts `data[a:b]`. -/
def insertionSortGo (a b : Nat) (l : List UserStory) : List UserStory :=
  isortFrom a b b (a+1) l

/-- `siftDown_func(data, lo, hi, first)`: heap sift-down.  Fuel-bounded loop
(`hi` iterations suffice since the root index strictly increases). -/
def siftDownGo (first : Nat) : Nat → List UserStory → Nat → Nat → List UserStory
  | 0, l, _, _ => l
  | fuel+1, l, root, hi =>
    let child := 2*root + 1
    if child ≥ hi then l
    else
      let child :=
        if child + 1 < hi ∧ lessB l (first+child) (first+child+1)
        then child + 1 else child
      if ¬ lessB l (first+root) (first+child) then l
      else siftDownGo first fuel (lswap l (first+root) (first+child)) child hi

/-- `heapSort_func` build phase: `for i := (hi-1)/2; i >= 0; i--`.  The
counter argument is `i+1` for the next index `i` to process. -/
def heapBuild (first hi : Nat) : Nat → List UserStory → List UserStory
  | 0, l => l
  | k+1, l => heapBuild first hi k (siftDownGo first (hi+1) l k hi)

/-- `heapSort_func` pop phase: `for i := hi - 1; i >= 0; i-- {
data.Swap(first, first+i); siftDown_func(data, lo, i, first) }`. -/
def heapPop (first : Nat) : Nat → List UserStory → List UserStory
  | 0, l => l
  | k+1, l => heapPop first k (siftDownGo first ((k+1)+1) (lswap l first (first+k)) 0 k)

/-- `heapSort_func(data, a, b)`. -/
def heapSortGo (l : List UserStory) (a b : Nat) : List UserStory :=
  let hi := b - a
  heapPop a hi (heapBuild a hi ((hi-1)/2 + 1) l)

/-- `reverseRange_func(data, a, b)`. -/
def reverseRangeGo : Nat → List UserStory → Nat → Nat → List UserStory
  | 0, l, _, _ => l
  | fuel+1, l, i, j => if i < j then reverseRangeGo fuel (lswap l i j) (i+1) (j-1) else l

/-- `order2_func(data, a, b, swaps)`: returns `x, y = a, b` such that
`data[x] <= data[y]`, incrementing the swap counter when it reorders. -/
def order2Go (l : List UserStory) (a b swaps : Nat) : Nat × Nat × Nat :=
  if lessB l b a then (b, a, swaps + 1) else (a, b, swaps)

/-- `median_func(data, a, b, c, swaps)`: index of the median of three. -/
def medianGo (l : List UserStory) (a b c swaps : Nat) : Nat × Nat :=
  let (a1, b1, s1) := order2Go l a b swaps
  let (b2, _c2, s2) := order2Go l b1 c s1
  let (_a3, b3, s3) := order2Go l a1 b2 s2
  (b3, s3)

/-- `medianAdjacent_func(data, a, swaps)`: median of `a-1, a, a+1`. -/
def medianAdjacentGo (l : List UserStory) (a swaps : Nat) : Nat × Nat :=
  medianGo l (a-1) a (a+1) swaps

/-- The `sortedHint` values of `sort/zsortfunc.go`. -/
inductive SortedHint where
  | unknownHint
  | increasingHint
  | decreasingHint
  deriving DecidableEq

/-- `choosePivot_func(data, a, b)`: pivot selection (comparison-only; the
swap counter counts hypothetical reorderings used to produce the hint). -/
def choosePivotGo (l : List UserStory) (a b : Nat) : Nat × SortedHint :=
  let len := b - a
  let i := a + len/4*1
  let j := a + len/4*2
  let k := a + len/4*3
  if 8 ≤ len then
    let (i, j, k, swaps) :=
      if 50 ≤ len then
        let (i1, s1) := medianAdjacentGo l i 0
        let (j1, s2) := medianAdjacentGo l j s1
        let (k1, s3) := medianAdjacentGo l k s2
        (i1, j1, k1, s3)
      else (i, j, k, 0)
    let (j2, swaps2) := medianGo l i j k swaps
    if swaps2 = 0 then (j2, SortedHint.increasingHint)
    else if swaps2 = 12 then (j2, SortedHint.decreasingHint)
    else (j2, SortedHint.unknownHint)
  else (j, SortedHint.increasingHint)

/-- `bits.Len(uint(n))`: number of bits needed to represent `n`. -/
def bitsLen (n : Nat) : Nat :=
  if n = 0 then 0 else Nat.log2 n + 1

/-- The `xorshift` PRNG of `sort.go` (state is a `uint64`). -/
def xorshiftNext (r : Nat) : Nat :=
  let r1 := (r ^^^ (r <<< 13)) % 2^64
  let r2 := r1 ^^^ (r1 >>> 7)
  (r2 ^^^ (r2 <<< 17)) % 2^64

/-- `nextPowerOfTwo(length)` from `sort.go`: `1 << bits.Len(uint(length))`. -/
def nextPowerOfTwoGo (length : Nat) : Nat :=
  1 <<< bitsLen length

/-- One swap of `breakPatterns_func`'s three-iteration loop. -/
def breakPatternsStep (a length modulus : Nat) (st : List UserStory × Nat) (i : Nat) :
    List UserStory × Nat :=
  let (l, random) := st
  let random := xorshiftNext random
  let other := random &&& (modulus - 1)
  let other := if other ≥ length then other - length else other
  let idx := a + (length/4)*2 - 1
  (lswap l (idx + i) (a + other), random)

/-- `breakPatterns_func(data, a, b)`: shuffles three elements around the
middle using the xorshift PRNG seeded with the length. -/
def breakPatternsGo (l : List UserStory) (a b : Nat) : List UserStory :=
  let length := b - a
  if 8 ≤ length then
    let modulus := nextPowerOfTwoGo length
    let st := breakPatternsStep a length modulus (l, length) 0
    let st := breakPatternsStep a length modulus st 1
    let st := breakPatternsStep a length modulus st 2
    st.1
  else l

/-- `partialInsertionSort_func`'s `for i < b && !data.Less(i, i-1) { i++ }`
scan. -/
def pisAdvance (l : List UserStory) (b : Nat) : Nat → Nat → Nat
  | 0, i => i
  | fuel+1, i => if i < b ∧ ¬ lessB l i (i-1) then pisAdvance l b fuel (i+1) else i

/-- `partialInsertionSort_func`'s left shift: `for j := i - 1; j >= 1; j--
{ if !data.Less(j, j-1) { break }; data.Swap(j, j-1) }`. -/
def pisShiftLeft : Nat → List UserStory → Nat → List UserStory
  | 0, l, _ => l
  | fuel+1, l, j =>
    if 1 ≤ j ∧ lessB l j (j-1) then pisShiftLeft fuel (lswap l j (j-1)) (j-1) else l

/-- `partialInsertionSort_func`'s right shift: `for j := i + 1; j < b; j++
{ if !data.Less(j, j-1) { break }; data.Swap(j, j-1) }`. -/
def pisShiftRight (b : Nat) : Nat → List UserStory → Nat → List UserStory
  | 0, l, _ => l
  | fuel+1, l, j =>
    if j < b ∧ lessB l j (j-1) then pisShiftRight b fuel (lswap l j (j-1)) (j+1) else l

/-- `partialInsertionSort_func(data, a, b)` main loop (`maxSteps = 5`,
`shortestShifting = 50`); returns whether the range ended fully sorted,
together with the (possibly modified) data. -/
def pdqPartialInsertionSortLoop (a b : Nat) : Nat → List UserStory → Nat → Bool × List UserStory
  | 0, l, _ => (false, l)
  | steps+1, l, i =>
    let i := pisAdvance l b (b+1) i
    if i = b then (true, l)
    else if b - a < 50 then (false, l)
    else
      let l := lswap l i (i-1)
      let l := if 2 ≤ i - a then pisShiftLeft b l (i-1) else l
      let l := if 2 ≤ b - i then pisShiftRight b b l (i+1) else l
      pdqPartialInsertionSortLoop a b steps l i

/-- `partialInsertionSort_func(data, a, b)`. -/
def pdqPartialInsertionSort (a b : Nat) (l : List UserStory) : Bool × List UserStory :=
  pdqPartialInsertionSortLoop a b 5 l (a+1)

/-- `partition_func`'s left scan `for i <= j && data.Less(i, a) { i++ }`. -/
def scanLt (l : List UserStory) (aIdx j : Nat) : Nat → Nat → Nat
  | 0, i => i
  | fuel+1, i => if i ≤ j ∧ lessB l i aIdx then scanLt l aIdx j fuel (i+1) else i

/-- `partition_func`'s right scan `for i <= j && !data.Less(j, a) { j-- }`. -/
def scanGe (l : List UserStory) (aIdx i : Nat) : Nat → Nat → Nat
  | 0, j => j
  | fuel+1, j => if i ≤ j ∧ ¬ lessB l j aIdx then scanGe l aIdx i fuel (j-1) else j

/-- `partition_func`'s main swap loop, after the first scan pair found an
out-of-place pair; returns the data and the final `j`. -/
def partitionInner (aIdx b : Nat) : Nat → List UserStory → Nat → Nat → List UserStory × Nat
  | 0, l, _, j => (l, j)
  | fuel+1, l, i, j =>
    let i := scanLt l aIdx j (b+1) i
    let j := scanGe l aIdx i (b+1) j
    if i > j then (l, j)
    else partitionInner aIdx b fuel (lswap l i j) (i+1) (j-1)

/-- `partition_func(data, a, b, pivot)`: Hoare partition around the value
moved to index `a`; returns `(data, newpivot, alreadyPartitioned)`. -/
def partitionGo (l : List UserStory) (a b pivot : Nat) : List UserStory × Nat × Bool :=
  let l1 := lswap l a pivot
  let i := scanLt l1 a (b-1) (b+1) (a+1)
  let j := scanGe l1 a i (b+1) (b-1)
  if i > j then (lswap l1 j a, j, true)
  else
    let l2 := lswap l1 i j
    let pr := partitionInner a b (b+1) l2 (i+1) (j-1)
    (lswap pr.1 pr.2 a, pr.2, false)

/-- `partitionEqual_func`'s left scan `for i <= j && !data.Less(a, i) { i++ }`. -/
def scanLe (l : List UserStory) (aIdx j : Nat) : Nat → Nat → Nat
  | 0, i => i
  | fuel+1, i => if i ≤ j ∧ ¬ lessB l aIdx i then scanLe l aIdx j fuel (i+1) else i

/-- `partitionEqual_func`'s right scan `for i <= j && data.Less(a, j) { j-- }`. -/
def scanGt (l : List UserStory) (aIdx i : Nat) : Nat → Nat → Nat
  | 0, j => j
  | fuel+1, j => if i ≤ j ∧ lessB l aIdx j then scanGt l aIdx i fuel (j-1) else j

/-- `partitionEqual_func`'s swap loop; returns the data and the final `i`. -/
def partitionEqualInner (aIdx b : Nat) : Nat → List UserStory → Nat → Nat → List UserStory × Nat
  | 0, l, i, _ => (l, i)
  | fuel+1, l, i, j =>
    let i := scanLe l aIdx j (b+1) i
    let j := scanGt l aIdx i (b+1) j
    if i > j then (l, i)
    else partitionEqualInner aIdx b fuel (lswap l i j) (i+1) (j-1)

/-- `partitionEqual_func(data, a, b, pivot)`: partitions elements equal to the
pivot (moved to index `a`) to the front; returns `(data, newpivot)`. -/
def partitionEqualGo (l : List UserStory) (a b pivot : Nat) : List UserStory × Nat :=
  let l1 := lswap l a pivot
  partitionEqualInner a b (b+1) l1 (a+1) (b-1)

/-- `pdqsort_func(data, a, b, limit)`.  The Go `for` loop is rendered as the
recursion on the first (fuel) argument; each loop round either returns or
strictly shrinks `b - a`, so fuel `length + 1` dominates every path.  The
local flags `wasBalanced`/`wasPartitioned` are reset to `true` for the
recursive call on the shorter side (a fresh Go invocation) and carried over
when the loop continues on the longer side. -/
def pdqsortGo : Nat → List UserStory → Nat → Nat → Nat → Bool → Bool → List UserStory
  | 0, l, _, _, _, _, _ => l
  | fuel+1, l, a, b, limit, wasBalanced, wasPartitioned =>
    let length := b - a
    if length ≤ 12 then insertionSortGo a b l
    else if limit = 0 then heapSortGo l a b
    else
      let l1 := if ¬ wasBalanced then breakPatternsGo l a b else l
      let limit1 := if ¬ wasBalanced then limit - 1 else limit
      let pv := choosePivotGo l1 a b
      let isRev := pv.2 = SortedHint.decreasingHint
      let l2 := if isRev then reverseRangeGo b l1 a (b-1) else l1
      let pivot := if isRev then (b-1) - (pv.1 - a) else pv.1
      let hint := if isRev then SortedHint.increasingHint else pv.2
      let ps :=
        if wasBalanced ∧ wasPartitioned ∧ hint = SortedHint.increasingHint
        then pdqPartialInsertionSort a b l2 else (false, l2)
      if ps.1 then ps.2
      else if 0 < a ∧ ¬ lessB ps.2 (a-1) pivot then
        let pe := partitionEqualGo ps.2 a b pivot
        pdqsortGo fuel pe.1 pe.2 b limit1 wasBalanced wasPartitioned
      else
        let pt := partitionGo ps.2 a b pivot
        let mid := pt.2.1
        let wasPartitioned2 := pt.2.2
        let leftLen := mid - a
        let rightLen := b - mid
        let balanceThreshold := length / 8
        let wasBalanced2 := decide (min leftLen rightLen ≥ balanceThreshold)
        if leftLen < rightLen then
          let l3 := pdqsortGo fuel pt.1 a mid limit1 true true
          pdqsortGo fuel l3 (mid+1) b limit1 wasBalanced2 wasPartitioned2
        else
          let l3 := pdqsortGo fuel pt.1 (mid+1) b limit1 true true
          pdqsortGo fuel l3 a mid limit1 wasBalanced2 wasPartitioned2

/-- `sort.Slice(l, less)` with the `NextStory` comparison closure:
`pdqsort_func(data, 0, length, bits.Len(uint(length)))`. -/
def sortSlice (l : List UserStory) : List UserStory :=
  pdqsortGo (l.length + 1) l 0 l.length (bitsLen l.length) true true

/-- `PRD.NextStory`: sorts the pending stories with `sort.Slice` by priority
and returns the first, or `nil` when none is pending. -/
def PRD.nextStory (p : PRD) : Option UserStory :=
  let pending := p.pendingStories
  if pending.length = 0 then none
  else (sortSlice pending).head?

/-! ## PID file controller (`internal/pidfile/pidfile.go`)

The controller reads a text file and probes process liveness.  The file
system read is modelled by an `FsRead` oracle value and liveness by a
`live : Int → Bool` oracle (on Unix, `os.FindProcess` always succeeds and
`process.Signal(syscall.Signal(0))` returns nil exactly when the signal can
be delivered, i.e. the process is alive and ours). -/

/-- Outcome of `os.ReadFile` on the PID file path. -/
inductive FsRead where
  | missing
  | failOther (e : GoError)
  | content (s : String)
  deriving DecidableEq

/-- Errors produced by `PIDFile.Read`: the sentinel `ErrNotRunning`, the
wrap `fmt.Errorf("invalid PID file: %w", err)` of a parse failure, or a
propagated file system error. -/
inductive ReadErr where
  | notRunning
  | invalidPID (e : GoError)
  | otherErr (e : GoError)
  deriving DecidableEq

/-- `strconv.Atoi(s)`: an optional single `+`/`-` sign followed by one or
more ASCII digits, with the result bounded to a 64-bit `int`
(`strconv.ErrRange` beyond that).  Returns the parsed value or the Go
error description. -/
def goAtoi (s : String) : Except GoError Int :=
  let chars := s.toList
  let (neg, digits) :=
    match chars with
    | '-' :: rest => (true, rest)
    | '+' :: rest => (false, rest)
    | rest => (false, rest)
  if digits.isEmpty then Except.error "invalid syntax"
  else if digits.any (fun c => ¬ c.isDigit) then Except.error "invalid syntax"
  else
    let n : Nat := digits.foldl (fun acc c => acc * 10 + (c.toNat - 48)) 0
    let v : Int := if neg then -(n : Int) else (n : Int)
    if v < -(2^63) ∨ (2^63 - 1) < v then Except.error "value out of range"
    else Except.ok v

/-- `PIDFile.Read`, returning the Go pair `(pid, err)`. -/
def pidfileRead (fs : FsRead) : Int × Option ReadErr :=
  match fs with
  | FsRead.missing => (0, some ReadErr.notRunning)
  | FsRead.failOther e => (0, some (ReadErr.otherErr e))
  | FsRead.content s =>
    match goAtoi s with
    | Except.ok pid => (pid, none)
    | Except.error e => (0, some (ReadErr.invalidPID e))

/-- `isProcessRunning(pid)`: `os.FindProcess` (which never fails on Unix)
followed by delivery of signal 0; the `live` oracle answers whether the
signal is deliverable. -/
def isProcessRunning (live : Int → Bool) (pid : Int) : Bool :=
  live pid

/-- `PIDFile.IsRunning`: `Read` followed by the liveness probe; on a read
failure of any kind it returns `(false, 0)`. -/
def pidfileIsRunning (fs : FsRead) (live : Int → Bool) : Bool × Int :=
  match pidfileRead fs with
  | (pid, none) => (isProcessRunning live pid, pid)
  | (_, some _) => (false, 0)

/-! ## Agent runner (`internal/agent/agent.go`)

`Agent.Execute` runs the external agent process and classifies the error of
`cmd.Run()`: nil, an `*exec.ExitError` carrying an exit code, or any other
error — checked against `ctx.Err() == context.DeadlineExceeded` to label a
timeout.  The subprocess outcome is an oracle value (`RunOutcome`); the
captured combined output is the oracle's `output` string. -/

/-- The error value returned by `cmd.Run()`, classified the way the source
inspects it. -/
inductive RunError where
  | exitError (code : Int)
  | otherError (msg : GoError)
  deriving DecidableEq

/-- Oracle for one subprocess execution: `cmd.Run()`'s error (if any),
whether `ctx.Err() == context.DeadlineExceeded` at that point, and the
combined output captured by the tee buffer. -/
structure RunOutcome where
  err : Option RunError
  ctxDeadlineExceeded : Bool
  output : String
  deriving DecidableEq

/-- `agent.Result`. -/
structure AgentResult where
  output : String
  exitCode : Int
  isComplete : Bool
  error : Option GoError
  deriving DecidableEq

/-- Whether `xs` starts with `pre` (element-wise). -/
def startsWithL : List Char → List Char → Bool
  | [], _ => true
  | _ :: _, [] => false
  | a :: as, b :: bs => a = b && startsWithL as bs

/-- Whether `needle` occurs as a contiguous run inside `hay`
(`strings.Contains`). -/
def hasSubstrL (needle : List Char) : List Char → Bool
  | [] => startsWithL needle []
  | c :: rest => startsWithL needle (c :: rest) || hasSubstrL needle rest

/-- `strings.Contains(out, "<promise>COMPLETE</promise>")`. -/
def containsMarker (out : String) : Bool :=
  hasSubstrL "<promise>COMPLETE</promise>".toList out.toList

/-- `Agent.Execute(ctx, prompt)`, given the subprocess outcome: builds the
`Result` and always returns a nil second component. -/
def agentExecute (o : RunOutcome) : AgentResult × Option GoError :=
  let base : AgentResult :=
    { output := o.output, exitCode := 0, isComplete := false, error := none }
  let r :=
    match o.err with
    | none => base
    | some (RunError.exitError code) => { base with exitCode := code }
    | some (RunError.otherError m) =>
      if o.ctxDeadlineExceeded then
        { base with error := some "agent timed out", exitCode := -1 }
      else
        { base with error := some m, exitCode := -1 }
  ({ r with isComplete := containsMarker o.output }, none)

/-- `Agent.ExecuteWithStdin(ctx, prompt)`: same outcome classification as
`Execute` (the two differ only in how the prompt reaches the process). -/
def agentExecuteWithStdin (o : RunOutcome) : AgentResult × Option GoError :=
  let base : AgentResult :=
    { output := o.output, exitCode := 0, isComplete := false, error := none }
  let r :=
    match o.err with
    | none => base
    | some (RunError.exitError code) => { base with exitCode := code }
    | some (RunError.otherError m) =>
      if o.ctxDeadlineExceeded then
        { base with error := some "agent timed out", exitCode := -1 }
      else
        { base with error := some m, exitCode := -1 }
  ({ r with isComplete := containsMarker o.output }, none)

/-! ## Hook dispatcher (`internal/hooks/hooks.go`)

`Runner.Run` looks up the command list for a phase and executes each
command in order via `runSingle`, stopping at the first error.  Command
execution is an oracle `exec : argv → env-overlay → Option GoError`
(`cmd.Run()`'s error).  The dispatcher additionally returns the ordered
list of argvs it actually launched, so that ordering and early-abort
behaviour can be stated. -/

/-- `unicode.IsSpace` for the code points `strings.Fields` splits on. -/
def goIsSpace (c : Char) : Bool :=
  c.toNat = 0x20 || c.toNat = 0x9 || c.toNat = 0xA || c.toNat = 0xB ||
  c.toNat = 0xC || c.toNat = 0xD || c.toNat = 0x85 || c.toNat = 0xA0 ||
  c.toNat = 0x1680 || (0x2000 ≤ c.toNat && c.toNat ≤ 0x200A) ||
  c.toNat = 0x2028 || c.toNat = 0x2029 || c.toNat = 0x202F ||
  c.toNat = 0x205F || c.toNat = 0x3000

/-- Helper for `goFields`: accumulates the current word (reversed). -/
def fieldsAux : List Char → List Char → List String
  | acc, [] => if acc.isEmpty then [] else [String.mk acc.reverse]
  | acc, c :: cs =>
    if goIsSpace c then
      if acc.isEmpty then fieldsAux [] cs
      else String.mk acc.reverse :: fieldsAux [] cs
    else fieldsAux (c :: acc) cs

/-- `strings.Fields(s)`: the maximal runs of non-space characters. -/
def goFields (s : String) : List String :=
  fieldsAux [] s.toList

/-- `hooks.Runner` (the `Verbose` flag only controls logging). -/
structure HooksRunner where
  onStart : List String
  onIteration : List String
  onComplete : List String
  onFailure : List String
  enabled : Bool

/-- Oracle for hook subprocess execution: argv and environment overlay to
`cmd.Run()`'s error. -/
abbrev HookExec := List String → List (String × String) → Option GoError

/-- `Runner.runSingle(ctx, command, env)`: skips empty commands and
commands with no fields; otherwise launches the parsed argv.  Returns the
list of launched argvs (empty or a singleton) and the error. -/
def runSingle (exec : HookExec) (env : List (String × String)) (command : String) :
    List (List String) × Option GoError :=
  if command = "" then ([], none)
  else
    match goFields command with
    | [] => ([], none)
    | p :: ps => ([p :: ps], exec (p :: ps) env)

/-- The loop of `Runner.Run` over one phase's command list: first failure
aborts, wrapped as `fmt.Errorf("hook %s failed: %w", hook, err)`. -/
def runCmds (exec : HookExec) (env : List (String × String)) :
    List String → List (List String) × Option GoError
  | [] => ([], none)
  | h :: t =>
    let (tr, res) := runSingle exec env h
    match res with
    | some e => (tr, some ("hook " ++ h ++ " failed: " ++ e))
    | none =>
      let (tr2, res2) := runCmds exec env t
      (tr ++ tr2, res2)

/-- `Runner.Run(ctx, hookType, env)`: no-op when disabled; dispatches on the
four phase names; unknown phases fail. -/
def hooksRun (r : HooksRunner) (exec : HookExec) (hookType : String)
    (env : List (String × String)) : List (List String) × Option GoError :=
  if ¬ r.enabled then ([], none)
  else if hookType = "onStart" then runCmds exec env r.onStart
  else if hookType = "onIteration" then runCmds exec env r.onIteration
  else if hookType = "onComplete" then runCmds exec env r.onComplete
  else if hookType = "onFailure" then runCmds exec env r.onFailure
  else ([], some ("unknown hook type: " ++ hookType))

/-- `Runner.RunOnStart(ctx, iteration, storyID)`. -/
def runOnStart (r : HooksRunner) (exec : HookExec) (iteration : Nat) (storyID : String) :
    List (List String) × Option GoError :=
  hooksRun r exec "onStart"
    [("RALPH_ITERATION", toString iteration), ("RALPH_STORY_ID", storyID),
     ("RALPH_HOOK", "onStart")]

/-- `Runner.RunOnIteration(ctx, iteration, storyID)`. -/
def runOnIteration (r : HooksRunner) (exec : HookExec) (iteration : Nat) (storyID : String) :
    List (List String) × Option GoError :=
  hooksRun r exec "onIteration"
    [("RALPH_ITERATION", toString iteration), ("RALPH_STORY_ID", storyID),
     ("RALPH_HOOK", "onIteration")]

/-- `Runner.RunOnComplete(ctx, iterations, storiesCompleted)`. -/
def runOnComplete (r : HooksRunner) (exec : HookExec) (iterations storiesCompleted : Nat) :
    List (List String) × Option GoError :=
  hooksRun r exec "onComplete"
    [("RALPH_ITERATIONS", toString iterations),
     ("RALPH_STORIES_COMPLETED", toString storiesCompleted),
     ("RALPH_HOOK", "onComplete")]

/-- `Runner.RunOnFailure(ctx, iteration, reason)`. -/
def runOnFailure (r : HooksRunner) (exec : HookExec) (iteration : Nat) (reason : String) :
    List (List String) × Option GoError :=
  hooksRun r exec "onFailure"
    [("RALPH_ITERATION", toString iteration), ("RALPH_FAILURE_REASON", reason),
     ("RALPH_HOOK", "onFailure")]

/-! ## Iteration supervisor (`internal/loop/loop.go`)

`Loop.Run` drives the bounded iteration loop.  Per-iteration effects are
supplied by an `IterEnv` oracle (PRD reload result, hook subprocess
outcomes, progress/template/render outcomes, the agent subprocess
outcome, and the post-agent PRD reload); cancellation is a predicate on
the iteration number at whose loop-top check `ctx.Done()` fires.  The
model emits the dispatcher-level hook invocations as a `LoopEvent` trace
(printing, sleeping and wall-clock durations are not modelled). -/

/-- Oracle for the effects of one `runIteration` call. -/
structure IterEnv where
  /-- Result of the `prd.Load` at the top of the iteration (`none` = error). -/
  prdLoad : Option PRD
  /-- Subprocess oracle for the hook dispatcher calls of this iteration. -/
  hookExec : HookExec
  /-- Error of the `progress.Load` reload, if any. -/
  progressErr : Option GoError
  /-- Error of `prompt.BuildTemplateData`, if any. -/
  buildErr : Option GoError
  /-- Error of `prompt.Render`, if any. -/
  renderErr : Option GoError
  /-- Outcome of the agent subprocess run. -/
  agentOutcome : RunOutcome
  /-- Result of the post-agent `prd.Load` (its error is discarded by the
  source, so `none` stands for that error case). -/
  prdLoad2 : Option PRD

/-- Oracle for a whole `Loop.Run` call. -/
structure RunEnv where
  /-- Whether `ctx.Done()` is observed at the top-of-loop check of
  iteration `i`. -/
  cancelledAt : Nat → Bool
  /-- Subprocess oracle for the `onStart` dispatcher call. -/
  startExec : HookExec
  /-- Per-iteration oracles. -/
  iter : Nat → IterEnv

/-- Dispatcher-level hook invocations of one run, in order. -/
inductive LoopEvent where
  | hookStart (iteration : Nat) (storyID : String)
  | hookIteration (iteration : Nat) (storyID : String)
  | hookComplete (iterations storiesCompleted : Nat)
  | hookFailure (iteration : Nat) (reason : String)
  deriving DecidableEq

/-- `loop.IterationResult`. -/
structure IterationResult where
  complete : Bool
  error : Option GoError
  deriving DecidableEq

/-- The mutable `Loop` state threaded through iterations (`l.PRD` and
`l.StoriesComplete`; `l.Progress` is reloaded each iteration and its
content never read by the loop itself). -/
structure LoopState where
  prd : PRD
  storiesComplete : Nat

/-- `loop.Result` (the `Duration` field is not modelled). -/
structure LoopResult where
  success : Bool := false
  iterations : Nat := 0
  storiesComplete : Nat := 0
  error : Option GoError := none
  reason : String := ""
  deriving DecidableEq

/-- `Loop.runIteration(ctx)`: reloads the PRD, short-circuits on
completion or no pending story, runs the `onIteration` hooks, reloads
progress, builds and renders the prompt, executes the agent, and updates
the completed-story count.  Returns the iteration result, the new loop
state, and the hook invocations made. -/
def runIteration (hooks : HooksRunner) (env : IterEnv) (iteration : Nat)
    (st : LoopState) : IterationResult × LoopState × List LoopEvent :=
  match env.prdLoad with
  | none =>
    ({ complete := false, error := some "failed to reload PRD" }, st, [])
  | some newPRD =>
    let st := { st with prd := newPRD }
    if newPRD.isComplete then ({ complete := true, error := none }, st, [])
    else
      match newPRD.nextStory with
      | none => ({ complete := true, error := none }, st, [])
      | some story =>
        let (_total, completed, pending) := newPRD.stats
        let evs := [LoopEvent.hookIteration iteration story.id]
        match (runOnIteration hooks env.hookExec iteration story.id).2 with
        | some e =>
          ({ complete := false, error := some ("onIteration hook failed: " ++ e) }, st, evs)
        | none =>
          match env.progressErr with
          | some e =>
            ({ complete := false, error := some ("failed to reload progress: " ++ e) }, st, evs)
          | none =>
            match env.buildErr with
            | some e =>
              ({ complete := false, error := some ("failed to build template data: " ++ e) },
               st, evs)
            | none =>
              match env.renderErr with
              | some e =>
                ({ complete := false, error := some ("failed to render prompt: " ++ e) },
                 st, evs)
              | none =>
                let (agentResult, aerr) := agentExecute env.agentOutcome
                match aerr with
                | some e =>
                  ({ complete := false, error := some ("agent execution failed: " ++ e) },
                   st, evs)
                | none =>
                  let complete := agentResult.isComplete
                  let st :=
                    if complete then { st with storiesComplete := completed + pending }
                    else st
                  let st :=
                    match env.prdLoad2 with
                    | some p2 =>
                      let (_, newCompleted, _) := p2.stats
                      if completed < newCompleted
                      then { st with storiesComplete := newCompleted } else st
                    | none => st
                  ({ complete := complete, error := none }, st, evs)

/-- The `for l.Iteration = 1; l.Iteration <= maxIterations; l.Iteration++`
loop of `Loop.Run`.  `remaining` is the fuel `maxIterations + 1 - i`
maintained by the caller, so `remaining = 0` is exactly the loop's exit
condition `i > maxIterations`. -/
def runFrom (hooks : HooksRunner) (env : RunEnv) :
    Nat → Nat → LoopState → LoopResult × List LoopEvent
  | 0, i, _ =>
    ({ reason := "max_iterations", iterations := i - 1 },
     [LoopEvent.hookFailure i "max iterations reached"])
  | remaining+1, i, st =>
    if env.cancelledAt i then
      ({ error := some "context canceled", reason := "cancelled", iterations := i }, [])
    else
      let (ir, st2, evs) := runIteration hooks (env.iter i) i st
      match ir.error with
      | some e =>
        ({ error := some e, reason := "error", iterations := i },
         evs ++ [LoopEvent.hookFailure i e])
      | none =>
        if ir.complete then
          ({ success := true, reason := "complete", iterations := i,
             storiesComplete := st2.storiesComplete },
           evs ++ [LoopEvent.hookComplete i st2.storiesComplete])
        else
          let (res, evs2) := runFrom hooks env remaining (i+1) st2
          (res, evs ++ evs2)

/-- `Loop.Run(ctx)`: short-circuits when the loaded PRD is already
complete, fires the `onStart` hooks, and enters the bounded loop. -/
def loopRun (hooks : HooksRunner) (maxIterations : Nat) (env : RunEnv)
    (initialPRD : PRD) : LoopResult × List LoopEvent :=
  if initialPRD.isComplete then
    ({ success := true, reason := "complete" }, [])
  else
    let storyID :=
      match initialPRD.nextStory with
      | some s => s.id
      | none => ""
    match (runOnStart hooks env.startExec 0 storyID).2 with
    | some e =>
      ({ error := some ("onStart hook failed: " ++ e), reason := "error" },
       [LoopEvent.hookStart 0 storyID])
    | none =>
      let (res, evs) :=
        runFrom hooks env maxIterations 1
          { prd := initialPRD, storiesComplete := 0 }
      (res, LoopEvent.hookStart 0 storyID :: evs)

/-- `Loop.RunOnce(ctx)`: forces the iteration counter to 1 and runs a
single iteration body. -/
def runOnce (hooks : HooksRunner) (env : IterEnv) (st : LoopState) :
    IterationResult × LoopState × List LoopEvent :=
  runIteration hooks env 1 st

/-- An iteration whose oracle describes a routine, non-terminating round:
the PRD reloads to an incomplete document with a pending story, every hook
of the round succeeds, progress/template/render succeed, and the agent
output does not contain the completion marker. -/
def NormalPendingIter (hooks : HooksRunner) (env : IterEnv) (k : Nat) : Prop :=
  ∃ p s,
    env.prdLoad = some p ∧
    p.isComplete = false ∧
    p.nextStory = some s ∧
    (runOnIteration hooks env.hookExec k s.id).2 = none ∧
    env.progressErr = none ∧
    env.buildErr = none ∧
    env.renderErr = none ∧
    containsMarker env.agentOutcome.output = false

/-! ## Concrete fixtures for witnesses and counterexamples -/

/-- A pending story with the given id and priority. -/
def pStory (n : String) (pr : Int) : UserStory :=
  { id := n, title := "t", description := "", acceptanceCriteria := []
    priority := pr, passes := false, notes := "" }

/-- A passing story with the given id and priority. -/
def doneStory (n : String) (pr : Int) : UserStory :=
  { pStory n pr with passes := true }

/-- A 13-pending-story PRD.  Thirteen stories exceed the pdqsort insertion
sort cutoff (12), so `sort.Slice` takes the partitioning path, which moves
the chosen pivot (here the tied minimum "S9") to the front ahead of the
earlier tied minimum "S6". -/
def fxCE13 : PRD :=
  { branchName := "ralph/feature"
    userStories :=
      [pStory "S0" 5, pStory "S1" 3, pStory "S2" 4, pStory "S3" 2,
       pStory "S4" 4, pStory "S5" 3, pStory "S6" 1, pStory "S7" 4,
       pStory "S8" 3, pStory "S9" 1, pStory "S10" 4, pStory "S11" 5,
       pStory "S12" 5] }

/-- A PRD with two pending stories. -/
def fxPending2 : PRD :=
  { branchName := "b", userStories := [pStory "A" 1, pStory "B" 2] }

/-- A PRD whose stories all pass. -/
def fxAllDone : PRD :=
  { branchName := "b", userStories := [doneStory "A" 1, doneStory "B" 2] }

/-- The spec's tie example: pending priorities `[3, 1, 2]`. -/
def fxTie312 : PRD :=
  { branchName := "b", userStories := [pStory "X" 3, pStory "Y" 1, pStory "Z" 2] }

/-- A hook runner with hooks globally disabled. -/
def fxHooksOff : HooksRunner :=
  { onStart := [], onIteration := [], onComplete := [], onFailure := []
    enabled := false }

/-- An enabled hook runner with a three-command `onIteration` phase whose
middle entry is blank. -/
def fxHooksOn : HooksRunner :=
  { onStart := ["echo start"], onIteration := ["echo a", "   ", "echo b"]
    onComplete := [], onFailure := [], enabled := true }

/-- A hook subprocess oracle on which every command succeeds. -/
def fxExecOk : HookExec := fun _ _ => none

/-- Agent outcome: normal exit, unremarkable output. -/
def fxOutPlain : RunOutcome :=
  { err := none, ctxDeadlineExceeded := false, output := "working on it" }

/-- Agent outcome: normal exit, output containing the completion marker. -/
def fxOutDone : RunOutcome :=
  { err := none, ctxDeadlineExceeded := false
    output := "done <promise>COMPLETE</promise> bye" }

/-- Agent outcome: the process could not be launched at all. -/
def fxOutLaunchFail : RunOutcome :=
  { err := some (RunError.otherError "fork-exec: executable file not found")
    ctxDeadlineExceeded := false, output := "" }

/-- A routine iteration oracle around the given agent outcome. -/
def fxIter (o : RunOutcome) : IterEnv :=
  { prdLoad := some fxPending2, hookExec := fxExecOk, progressErr := none
    buildErr := none, renderErr := none, agentOutcome := o
    prdLoad2 := some fxPending2 }

/-- Run oracle for the C1 scenario: marker on the second invocation only. -/
def fxEnvMarker2 : RunEnv :=
  { cancelledAt := fun _ => false, startExec := fxExecOk
    iter := fun i => if i = 2 then fxIter fxOutDone else fxIter fxOutPlain }

/-- Run oracle for the C2 scenario: the agent fails to launch every time. -/
def fxEnvLaunchFail : RunEnv :=
  { cancelledAt := fun _ => false, startExec := fxExecOk
    iter := fun _ => fxIter fxOutLaunchFail }

/-- Run oracle cancelled before the first iteration starts. -/
def fxEnvCancel0 : RunEnv :=
  { cancelledAt := fun _ => true, startExec := fxExecOk
    iter := fun _ => fxIter fxOutPlain }

/-- Run oracle cancelled between iteration 1 and iteration 2. -/
def fxEnvCancel1 : RunEnv :=
  { cancelledAt := fun i => decide (2 ≤ i), startExec := fxExecOk
    iter := fun _ => fxIter fxOutPlain }

/-- Run oracle for the C4 scenario: the marker never appears. -/
def fxEnvNoMarker : RunEnv :=
  { cancelledAt := fun _ => false, startExec := fxExecOk
    iter := fun _ => fxIter fxOutPlain }

/-- Agent outcome: killed by the per-invocation timeout. -/
def fxOutTimeout : RunOutcome :=
  { err := some (RunError.otherError "context deadline exceeded")
    ctxDeadlineExceeded := true, output := "partly <promise>COMPLETE</promise>" }

/-- The prefix `l[0..n)` is sorted by priority (index form). -/
def sortedUpTo (l : List UserStory) (n : Nat) : Prop :=
  ∀ i j, i ≤ j → j < n →
    (l.getD i dStory).priority ≤ (l.getD j dStory).priority

/-- Left fold selecting the first story of minimal priority: the accumulator
is replaced only by a strictly smaller priority, so ties keep the earlier
story. -/
def firstMinAcc (m : UserStory) : List UserStory → UserStory
  | [] => m
  | x :: xs => firstMinAcc (if x.priority < m.priority then x else m) xs

/-! # Theorems -/

/-- **C9.**  For every PRD with at least one task, `IsComplete` returns true
iff every task's `passes` flag is true; for the empty task list it always
returns false. -/
theorem c9_isComplete_spec (p : PRD) :
    (p.userStories ≠ [] →
      (p.isComplete = true ↔ ∀ s ∈ p.userStories, s.passes = true)) ∧
    (p.userStories = [] → p.isComplete = false) := by
  constructor
  · intro hne
    simp only [PRD.isComplete]
    by_cases h : p.userStories.any (fun s => !s.passes) = true
    · rw [if_pos h]
      simp only [Bool.false_eq_true, false_iff]
      intro hall
      rcases List.any_eq_true.mp h with ⟨s, hs, hneg⟩
      rw [hall s hs] at hneg
      exact absurd hneg (by simp)
    · rw [if_neg h]
      have hall : ∀ s ∈ p.userStories, s.passes = true := by
        intro s hs
        by_contra hc
        exact h (List.any_eq_true.mpr ⟨s, hs, by simp [Bool.eq_false_iff.mpr hc]⟩)
      simp only [decide_eq_true_eq]
      exact iff_of_true (List.length_pos.mpr hne) hall
  · intro he
    simp [PRD.isComplete, he]

/-- Witness for C9 at a concrete PRD with every story passing. -/
theorem c9_witness : fxAllDone.isComplete = true :=
  ((c9_isComplete_spec fxAllDone).1 (by decide)).mpr (by decide)

/-- **C7 (amended).**  `PIDFile.Read` returns the recorded identifier
exactly when the file exists and parses; it fails with `ErrNotRunning`
exactly when the record file does not exist; unparseable content yields the
distinct `invalid PID file` error, and any other filesystem failure is
propagated as-is. -/
theorem c7_pidfile_read_spec (fs : FsRead) :
    (pidfileRead fs = (0, some ReadErr.notRunning) ↔ fs = FsRead.missing) ∧
    (∀ pid, pidfileRead fs = (pid, none) ↔
      ∃ s, fs = FsRead.content s ∧ goAtoi s = Except.ok pid) ∧
    (∀ e, pidfileRead fs = (0, some (ReadErr.invalidPID e)) ↔
      ∃ s, fs = FsRead.content s ∧ goAtoi s = Except.error e) ∧
    (∀ e, pidfileRead fs = (0, some (ReadErr.otherErr e)) ↔
      fs = FsRead.failOther e) := by
  rcases fs with _ | e | s
  · simp [pidfileRead]
  · simp [pidfileRead]
  · refine ⟨?_, ?_, ?_, ?_⟩
    · rcases h : goAtoi s with e | v <;> simp [pidfileRead, h]
    · intro pid
      rcases h : goAtoi s with e | v <;> simp [pidfileRead, h, eq_comm]
    · intro e0
      rcases h : goAtoi s with e | v <;> simp [pidfileRead, h, eq_comm]
    · rcases h : goAtoi s with e | v <;> simp [pidfileRead, h]

/-- C7 counterexample: content that does not parse produces the
`invalid PID file` error, which is not the `ErrNotRunning` sentinel the
claim promises. -/
theorem c7_counterexample :
    pidfileRead (FsRead.content "abc") =
      (0, some (ReadErr.invalidPID "invalid syntax")) ∧
    ReadErr.invalidPID "invalid syntax" ≠ ReadErr.notRunning := by
  decide

/-- Witness for C7 on a parsing record file. -/
theorem c7_witness :
    pidfileRead (FsRead.content "12345") = (12345, none) :=
  ((c7_pidfile_read_spec (FsRead.content "12345")).2.1 12345).mpr
    ⟨"12345", rfl, rfl⟩

/-- **C6 (amended).**  `PIDFile.IsRunning` never propagates an error: on any
`Read` failure (missing file, unparseable content, other read error) it
returns `(false, 0)`; when the record parses it returns the liveness probe
result *paired with the parsed identifier* — so a record naming a dead
process yields `(false, pid)`, not `(false, 0)`. -/
theorem c6_pidfile_isRunning_spec (fs : FsRead) (live : Int → Bool) :
    ((pidfileRead fs).2 ≠ none → pidfileIsRunning fs live = (false, 0)) ∧
    (∀ pid, pidfileRead fs = (pid, none) →
      pidfileIsRunning fs live = (isProcessRunning live pid, pid)) := by
  constructor
  · intro hfail
    rcases h : pidfileRead fs with ⟨pid, o⟩
    rcases o with _ | e
    · rw [h] at hfail; simp at hfail
    · simp [pidfileIsRunning, h]
  · intro pid h
    simp [pidfileIsRunning, h]

/-- C6 counterexample: a record naming a dead process returns
`(false, 12345)`, not the `(false, 0)` the claim states. -/
theorem c6_counterexample :
    pidfileIsRunning (FsRead.content "12345") (fun _ => false) = (false, 12345) ∧
    ((false, (12345 : Int)) : Bool × Int) ≠ (false, 0) := by
  decide

/-- Witness for C6 on a missing record file. -/
theorem c6_witness :
    pidfileIsRunning FsRead.missing (fun _ => true) = (false, 0) :=
  (c6_pidfile_isRunning_spec FsRead.missing (fun _ => true)).1 (by decide)

/-- **C10.**  `Agent.Execute` and `Agent.ExecuteWithStdin` always return a
nil error; timeouts and launch failures are reported only inside the
`Result` (error message set, exit code -1), a plain exit reports only the
exit code, and the completion-marker flag is computed from the captured
output in every case. -/
theorem c10_agent_execute_spec (o : RunOutcome) :
    (agentExecute o).2 = none ∧
    (agentExecuteWithStdin o).2 = none ∧
    (agentExecute o).1.isComplete = containsMarker o.output ∧
    (agentExecuteWithStdin o).1.isComplete = containsMarker o.output ∧
    (agentExecute o).1.output = o.output ∧
    (o.err = none →
      (agentExecute o).1.error = none ∧ (agentExecute o).1.exitCode = 0) ∧
    (∀ c, o.err = some (RunError.exitError c) →
      (agentExecute o).1.exitCode = c ∧ (agentExecute o).1.error = none) ∧
    (∀ m, o.err = some (RunError.otherError m) → o.ctxDeadlineExceeded = true →
      (agentExecute o).1.error = some "agent timed out" ∧
      (agentExecute o).1.exitCode = -1) ∧
    (∀ m, o.err = some (RunError.otherError m) → o.ctxDeadlineExceeded = false →
      (agentExecute o).1.error = some m ∧ (agentExecute o).1.exitCode = -1) ∧
    (∀ c, o.err = some (RunError.exitError c) →
      (agentExecuteWithStdin o).1.exitCode = c ∧
      (agentExecuteWithStdin o).1.error = none) ∧
    (∀ m, o.err = some (RunError.otherError m) → o.ctxDeadlineExceeded = true →
      (agentExecuteWithStdin o).1.error = some "agent timed out" ∧
      (agentExecuteWithStdin o).1.exitCode = -1) ∧
    (∀ m, o.err = some (RunError.otherError m) → o.ctxDeadlineExceeded = false →
      (agentExecuteWithStdin o).1.error = some m ∧
      (agentExecuteWithStdin o).1.exitCode = -1) := by
  rcases o with ⟨err, dl, out⟩
  rcases err with _ | e
  · simp [agentExecute, agentExecuteWithStdin]
  · rcases e with c | m <;> rcases dl <;>
      simp [agentExecute, agentExecuteWithStdin]

/-- Witness for C10 at a timed-out invocation whose captured output happens
to contain the completion marker. -/
theorem c10_witness :
    (agentExecute fxOutTimeout).2 = none ∧
    (agentExecute fxOutTimeout).1.error = some "agent timed out" ∧
    (agentExecute fxOutTimeout).1.exitCode = -1 ∧
    (agentExecute fxOutTimeout).1.isComplete = containsMarker fxOutTimeout.output := by
  obtain ⟨h1, -, h3, -, -, -, -, h8, -⟩ := c10_agent_execute_spec fxOutTimeout
  obtain ⟨he, hc⟩ := h8 "context deadline exceeded" rfl rfl
  exact ⟨h1, he, hc, h3⟩

/-- **C2.**  The claim says a launch-level agent failure stops the loop with
reason `error`.  In the source, `Agent.Execute` returns every failure inside
the `Result` and always returns a nil error, and `Loop.runIteration` checks
only that (always-nil) error and never `Result.Error` — so a launch failure
does not stop the loop.  Concretely: with `maxIterations = 2` and an agent
that can never be launched, the iteration reports no error and the run ends
with reason `max_iterations` and no error, not reason `error`. -/
theorem c2_launch_failure_not_fatal :
    (agentExecute fxOutLaunchFail).1.error =
      some "fork-exec: executable file not found" ∧
    (agentExecute fxOutLaunchFail).2 = none ∧
    (runIteration fxHooksOff (fxIter fxOutLaunchFail) 1
        { prd := fxPending2, storiesComplete := 0 }).1 =
      { complete := false, error := none } ∧
    (loopRun fxHooksOff 2 fxEnvLaunchFail fxPending2).1 =
      { success := false, iterations := 2, storiesComplete := 0, error := none
        reason := "max_iterations" } := by
  decide

/-- Helper: a `NormalPendingIter`-style iteration reduces `runIteration` to
an errorless result whose completion flag is the marker scan of the agent
output, with a single `onIteration` dispatcher event. -/
theorem prod3_ext {α β γ : Type _} (x : α × β × γ) {a : α} {c : γ}
    (h1 : x.1 = a) (h2 : x.2.2 = c) : x = (a, x.2.1, c) := by
  obtain ⟨x1, x2, x3⟩ := x
  cases h1
  cases h2
  rfl

/-- Helper: projections of `runIteration` on a routine round. -/
theorem runIteration_normal_proj (hooks : HooksRunner) (env : IterEnv) (k : Nat)
    (st : LoopState) (p : PRD) (s : UserStory)
    (hload : env.prdLoad = some p)
    (hnc : p.isComplete = false)
    (hns : p.nextStory = some s)
    (hhook : (runOnIteration hooks env.hookExec k s.id).2 = none)
    (hprog : env.progressErr = none)
    (hbuild : env.buildErr = none)
    (hrender : env.renderErr = none) :
    (runIteration hooks env k st).1 =
      { complete := containsMarker env.agentOutcome.output, error := none } ∧
    (runIteration hooks env k st).2.2 = [LoopEvent.hookIteration k s.id] := by
  simp only [runIteration, hload, hnc, hns, hhook, hprog, hbuild, hrender,
    agentExecute, Bool.false_eq_true, if_false]
  exact ⟨trivial, trivial⟩

theorem runIteration_normal (hooks : HooksRunner) (env : IterEnv) (k : Nat)
    (st : LoopState) (p : PRD) (s : UserStory)
    (hload : env.prdLoad = some p)
    (hnc : p.isComplete = false)
    (hns : p.nextStory = some s)
    (hhook : (runOnIteration hooks env.hookExec k s.id).2 = none)
    (hprog : env.progressErr = none)
    (hbuild : env.buildErr = none)
    (hrender : env.renderErr = none) :
    ∃ st2, runIteration hooks env k st =
      ({ complete := containsMarker env.agentOutcome.output, error := none }, st2,
       [LoopEvent.hookIteration k s.id]) := by
  obtain ⟨h1, h2⟩ :=
    runIteration_normal_proj hooks env k st p s hload hnc hns hhook hprog hbuild hrender
  exact ⟨_, prod3_ext _ h1 h2⟩

/-- Helper: one unfolding of the loop body at positive fuel. -/
theorem runFrom_succ (hooks : HooksRunner) (env : RunEnv) (r i : Nat) (st : LoopState) :
    runFrom hooks env (r+1) i st =
      (if env.cancelledAt i then
        ({ error := some "context canceled", reason := "cancelled", iterations := i }, [])
      else
        let (ir, st2, evs) := runIteration hooks (env.iter i) i st
        match ir.error with
        | some e =>
          ({ error := some e, reason := "error", iterations := i },
           evs ++ [LoopEvent.hookFailure i e])
        | none =>
          if ir.complete then
            ({ success := true, reason := "complete", iterations := i,
               storiesComplete := st2.storiesComplete },
             evs ++ [LoopEvent.hookComplete i st2.storiesComplete])
          else
            let (res, evs2) := runFrom hooks env r (i+1) st2
            (res, evs ++ evs2)) := rfl

/-- Helper: the loop exit at exhausted fuel. -/
theorem runFrom_zero (hooks : HooksRunner) (env : RunEnv) (i : Nat) (st : LoopState) :
    runFrom hooks env 0 i st =
      ({ reason := "max_iterations", iterations := i - 1 },
       [LoopEvent.hookFailure i "max iterations reached"]) := rfl

/-- Helper: when every iteration from `i` on is routine and non-completing
and cancellation never fires, the loop runs out of fuel and reports
`max_iterations` after firing the failure dispatcher. -/
theorem runFrom_all_normal (hooks : HooksRunner) (env : RunEnv)
    (hcancel : ∀ k, 1 ≤ k → env.cancelledAt k = false)
    (hnorm : ∀ k, 1 ≤ k → NormalPendingIter hooks (env.iter k) k) :
    ∀ remaining i st, 1 ≤ i →
      ∃ evs, runFrom hooks env remaining i st =
        ({ success := false, iterations := remaining + i - 1, storiesComplete := 0,
           error := none, reason := "max_iterations" }, evs) ∧
        LoopEvent.hookFailure (remaining + i) "max iterations reached" ∈ evs := by
  intro remaining
  induction remaining with
  | zero =>
    intro i st hi
    refine ⟨[LoopEvent.hookFailure i "max iterations reached"], ?_, ?_⟩
    · rw [runFrom_zero, Nat.zero_add]
    · rw [Nat.zero_add]
      exact List.mem_singleton.mpr rfl
  | succ r ih =>
    intro i st hi
    obtain ⟨p, s, hload, hnc, hns, hhook, hprog, hbuild, hrender, hmark⟩ := hnorm i hi
    obtain ⟨st2, hIt⟩ :=
      runIteration_normal hooks (env.iter i) i st p s hload hnc hns hhook hprog hbuild hrender
    obtain ⟨evs2, he, hmem⟩ := ih (i+1) st2 (by omega)
    have harith : r + (i + 1) = r + 1 + i := by omega
    refine ⟨[LoopEvent.hookIteration i s.id] ++ evs2, ?_, ?_⟩
    · simp only [runFrom_succ, hcancel i hi, Bool.false_eq_true, if_false, hIt, hmark, he]
      rw [harith]
    · simp only [List.mem_append]
      right
      rw [harith] at hmem
      exact hmem

/-- **C4.**  With `maxIterations = 3`, an agent that never emits the
completion marker and never causes a fatal iteration error, a task list that
never becomes complete, and no cancellation, `Run` returns reason
`max_iterations` with `Iterations = 3`, and the `onFailure` dispatcher is
invoked with the reason string `"max iterations reached"`. -/
theorem c4_max_iterations (hooks : HooksRunner) (env : RunEnv) (p0 : PRD)
    (hp0 : p0.isComplete = false)
    (hstart : ∀ sid, (runOnStart hooks env.startExec 0 sid).2 = none)
    (hcancel : ∀ k, 1 ≤ k → env.cancelledAt k = false)
    (hnorm : ∀ k, 1 ≤ k → NormalPendingIter hooks (env.iter k) k) :
    (loopRun hooks 3 env p0).1.reason = "max_iterations" ∧
    (loopRun hooks 3 env p0).1.iterations = 3 ∧
    LoopEvent.hookFailure 4 "max iterations reached" ∈ (loopRun hooks 3 env p0).2 := by
  obtain ⟨evs, he, hmem⟩ := runFrom_all_normal hooks env hcancel hnorm 3 1
    { prd := p0, storiesComplete := 0 } (by omega)
  simp only [loopRun, hp0, Bool.false_eq_true, if_false, hstart, he]
  refine ⟨trivial, trivial, ?_⟩
  simp only [List.mem_cons]
  right
  exact hmem

/-- Witness for C4 on the concrete never-completing oracle. -/
theorem c4_witness :
    (loopRun fxHooksOff 3 fxEnvNoMarker fxPending2).1.reason = "max_iterations" ∧
    (loopRun fxHooksOff 3 fxEnvNoMarker fxPending2).1.iterations = 3 ∧
    LoopEvent.hookFailure 4 "max iterations reached" ∈
      (loopRun fxHooksOff 3 fxEnvNoMarker fxPending2).2 :=
  c4_max_iterations fxHooksOff fxEnvNoMarker fxPending2 (by decide)
    (fun _ => rfl) (fun _ _ => rfl)
    (fun k _ => ⟨fxPending2, pStory "A" 1, rfl, by decide, by decide, rfl, rfl, rfl, rfl,
      rfl⟩)

/-- **C1.**  With `maxIterations = 5`, when the agent output contains the
completion marker on the second invocation and not on the first, both
invocations exit normally, and every other effect of the two rounds
succeeds with the task list still pending, `Run` returns reason `complete`
with `Success = true` after exactly 2 iterations. -/
theorem c1_complete_on_second (hooks : HooksRunner) (env : RunEnv)
    (p0 p1 p2 : PRD) (s1 s2 : UserStory)
    (hp0 : p0.isComplete = false)
    (hstart : ∀ sid, (runOnStart hooks env.startExec 0 sid).2 = none)
    (hc1 : env.cancelledAt 1 = false)
    (hc2 : env.cancelledAt 2 = false)
    (h1load : (env.iter 1).prdLoad = some p1)
    (h1nc : p1.isComplete = false)
    (h1ns : p1.nextStory = some s1)
    (h1hook : (runOnIteration hooks (env.iter 1).hookExec 1 s1.id).2 = none)
    (h1prog : (env.iter 1).progressErr = none)
    (h1build : (env.iter 1).buildErr = none)
    (h1render : (env.iter 1).renderErr = none)
    (_h1exit : (env.iter 1).agentOutcome.err = none)
    (h1mark : containsMarker (env.iter 1).agentOutcome.output = false)
    (h2load : (env.iter 2).prdLoad = some p2)
    (h2nc : p2.isComplete = false)
    (h2ns : p2.nextStory = some s2)
    (h2hook : (runOnIteration hooks (env.iter 2).hookExec 2 s2.id).2 = none)
    (h2prog : (env.iter 2).progressErr = none)
    (h2build : (env.iter 2).buildErr = none)
    (h2render : (env.iter 2).renderErr = none)
    (_h2exit : (env.iter 2).agentOutcome.err = none)
    (h2mark : containsMarker (env.iter 2).agentOutcome.output = true) :
    (loopRun hooks 5 env p0).1.reason = "complete" ∧
    (loopRun hooks 5 env p0).1.success = true ∧
    (loopRun hooks 5 env p0).1.iterations = 2 := by
  obtain ⟨st2, hIt1⟩ := runIteration_normal hooks (env.iter 1) 1
    { prd := p0, storiesComplete := 0 } p1 s1 h1load h1nc h1ns h1hook h1prog h1build h1render
  obtain ⟨st3, hIt2⟩ := runIteration_normal hooks (env.iter 2) 2 st2 p2 s2
    h2load h2nc h2ns h2hook h2prog h2build h2render
  have h5 : (5 : Nat) = 4 + 1 := rfl
  have h4 : (4 : Nat) = 3 + 1 := rfl
  simp only [loopRun, hp0, Bool.false_eq_true, if_false, hstart, h5, runFrom_succ,
    hc1, hIt1, h1mark, if_false, h4, hc2, hIt2, h2mark, if_true]
  exact ⟨trivial, trivial, trivial⟩

/-- Witness for C1 on the concrete marker-on-second-invocation oracle. -/
theorem c1_witness :
    (loopRun fxHooksOff 5 fxEnvMarker2 fxPending2).1.reason = "complete" ∧
    (loopRun fxHooksOff 5 fxEnvMarker2 fxPending2).1.success = true ∧
    (loopRun fxHooksOff 5 fxEnvMarker2 fxPending2).1.iterations = 2 :=
  c1_complete_on_second fxHooksOff fxEnvMarker2 fxPending2 fxPending2 fxPending2
    (pStory "A" 1) (pStory "A" 1) (by decide) (fun _ => rfl) rfl rfl
    rfl (by decide) (by decide) rfl rfl rfl rfl rfl (by decide)
    rfl (by decide) (by decide) rfl rfl rfl rfl rfl (by decide)

/-- **C3 (amended).**  When the initial task list is not complete and the
start hook succeeds, a cancellation token already signalled before the loop
body yields reason `cancelled` with `Iterations = 1` (the loop records the
1-based index of the iteration at whose top-of-loop check the cancellation
was observed, not the number of completed iterations); a cancellation
observed between iteration 1 and iteration 2 yields reason `cancelled` with
`Iterations = 2`. -/
theorem c3_cancelled_iterations (hooks : HooksRunner) (env : RunEnv)
    (p0 : PRD) (m : Nat)
    (hp0 : p0.isComplete = false)
    (hstart : ∀ sid, (runOnStart hooks env.startExec 0 sid).2 = none) :
    (1 ≤ m → env.cancelledAt 1 = true →
      (loopRun hooks m env p0).1.reason = "cancelled" ∧
      (loopRun hooks m env p0).1.iterations = 1) ∧
    (2 ≤ m → env.cancelledAt 1 = false → env.cancelledAt 2 = true →
      NormalPendingIter hooks (env.iter 1) 1 →
      (loopRun hooks m env p0).1.reason = "cancelled" ∧
      (loopRun hooks m env p0).1.iterations = 2) := by
  constructor
  · intro hm hcan
    obtain ⟨r, rfl⟩ : ∃ r, m = r + 1 := ⟨m - 1, by omega⟩
    simp only [loopRun, hp0, Bool.false_eq_true, if_false, hstart, runFrom_succ, hcan,
      if_true]
    exact ⟨trivial, trivial⟩
  · intro hm hcan1 hcan2 hn
    obtain ⟨r, rfl⟩ : ∃ r, m = r + 2 := ⟨m - 2, by omega⟩
    obtain ⟨p, s, hload, hnc, hns, hhook, hprog, hbuild, hrender, hmark⟩ := hn
    obtain ⟨st2, hIt1⟩ := runIteration_normal hooks (env.iter 1) 1
      { prd := p0, storiesComplete := 0 } p s hload hnc hns hhook hprog hbuild hrender
    have hstep : r + 2 = (r + 1) + 1 := rfl
    simp only [loopRun, hp0, Bool.false_eq_true, if_false, hstart, hstep, runFrom_succ,
      hcan1, hIt1, hmark, if_false, hcan2, if_true]
    exact ⟨trivial, trivial⟩

/-- C3 counterexample: with the token signalled before the loop starts the
run does report reason `cancelled`, but with `Iterations = 1`, not the 0 the
claim states. -/
theorem c3_counterexample :
    (loopRun fxHooksOff 5 fxEnvCancel0 fxPending2).1.reason = "cancelled" ∧
    (loopRun fxHooksOff 5 fxEnvCancel0 fxPending2).1.iterations = 1 ∧
    (1 : Nat) ≠ 0 := by decide

/-- Witness for C3 on the concrete cancel-between-1-and-2 oracle. -/
theorem c3_witness :
    (loopRun fxHooksOff 5 fxEnvCancel1 fxPending2).1.reason = "cancelled" ∧
    (loopRun fxHooksOff 5 fxEnvCancel1 fxPending2).1.iterations = 2 :=
  (c3_cancelled_iterations fxHooksOff fxEnvCancel1 fxPending2 5 (by decide)
      (fun _ => rfl)).2 (by omega) (by decide) (by decide)
    ⟨fxPending2, pStory "A" 1, rfl, by decide, by decide, rfl, rfl, rfl, rfl, by decide⟩

/-- Helper: `runSingle` on a blank command is a successful no-op. -/
theorem runSingle_blank (exec : HookExec) (envp : List (String × String))
    (cmd : String) (h : goFields cmd = []) :
    runSingle exec envp cmd = ([], none) := by
  by_cases hc : cmd = ""
  · simp [runSingle, hc]
  · simp [runSingle, hc, h]

/-- Helper: `runSingle` on a non-blank command launches exactly its argv. -/
theorem runSingle_launch (exec : HookExec) (envp : List (String × String))
    (cmd : String) (x : String) (xs : List String) (h : goFields cmd = x :: xs) :
    runSingle exec envp cmd = ([x :: xs], exec (x :: xs) envp) := by
  have hc : cmd ≠ "" := by
    intro he
    rw [he] at h
    have h0 : goFields "" = [] := rfl
    rw [h0] at h
    exact List.cons_ne_nil x xs h.symm
  simp [runSingle, hc, h]

/-- Helper: a blank head command is skipped by the phase loop. -/
theorem runCmds_cons_blank (exec : HookExec) (envp : List (String × String))
    (cmd : String) (t : List String) (h : goFields cmd = []) :
    runCmds exec envp (cmd :: t) = runCmds exec envp t := by
  simp [runCmds, runSingle_blank exec envp cmd h]

/-- Helper: a failing head command aborts the phase with the wrapped error. -/
theorem runCmds_cons_fail (exec : HookExec) (envp : List (String × String))
    (cmd : String) (t : List String) (x : String) (xs : List String) (ge : GoError)
    (h : goFields cmd = x :: xs) (hx : exec (x :: xs) envp = some ge) :
    runCmds exec envp (cmd :: t) =
      ([x :: xs], some ("hook " ++ cmd ++ " failed: " ++ ge)) := by
  simp [runCmds, runSingle_launch exec envp cmd x xs h, hx]

/-- Helper: a succeeding head command is followed by the rest of the list. -/
theorem runCmds_cons_ok (exec : HookExec) (envp : List (String × String))
    (cmd : String) (t : List String) (x : String) (xs : List String)
    (h : goFields cmd = x :: xs) (hx : exec (x :: xs) envp = none) :
    runCmds exec envp (cmd :: t) =
      ((x :: xs) :: (runCmds exec envp t).1, (runCmds exec envp t).2) := by
  simp [runCmds, runSingle_launch exec envp cmd x xs h, hx]

/-- Helper: the phase loop succeeds iff every non-blank command's launch
succeeds. -/
theorem runCmds_none_iff (exec : HookExec) (envp : List (String × String)) :
    ∀ cmds : List String,
      (runCmds exec envp cmds).2 = none ↔
        ∀ c ∈ cmds, goFields c ≠ [] → exec (goFields c) envp = none := by
  intro cmds
  induction cmds with
  | nil => simp [runCmds]
  | cons cmd t ih =>
    rcases hf : goFields cmd with _ | ⟨x, xs⟩
    · rw [runCmds_cons_blank exec envp cmd t hf, ih]
      constructor
      · intro hall c hc hne
        rcases List.mem_cons.mp hc with rfl | hct
        · exact absurd hf hne
        · exact hall c hct hne
      · intro hall c hc hne
        exact hall c (List.mem_cons_of_mem _ hc) hne
    · rcases hx : exec (x :: xs) envp with _ | ge
      · rw [runCmds_cons_ok exec envp cmd t x xs hf hx, ih]
        constructor
        · intro hall c hc hne
          rcases List.mem_cons.mp hc with rfl | hct
          · rw [hf]
            exact hx
          · exact hall c hct hne
        · intro hall c hc hne
          exact hall c (List.mem_cons_of_mem _ hc) hne
      · rw [runCmds_cons_fail exec envp cmd t x xs ge hf hx]
        simp only [Option.some_ne_none, false_iff]
        intro hall
        have := hall cmd (List.mem_cons_self _ _) (by rw [hf]; exact List.cons_ne_nil x xs)
        rw [hf, hx] at this
        exact Option.some_ne_none ge this

/-- Helper: on a fully succeeding phase the launched argvs are exactly the
fields of the non-blank commands, in list order. -/
theorem runCmds_none_trace (exec : HookExec) (envp : List (String × String)) :
    ∀ cmds : List String, (runCmds exec envp cmds).2 = none →
      (runCmds exec envp cmds).1 =
        (cmds.filter (fun c => !(goFields c).isEmpty)).map goFields := by
  intro cmds
  induction cmds with
  | nil => intro _; simp [runCmds]
  | cons cmd t ih =>
    intro hres
    rcases hf : goFields cmd with _ | ⟨x, xs⟩
    · rw [runCmds_cons_blank exec envp cmd t hf] at hres ⊢
      rw [ih hres]
      simp [hf]
    · rcases hx : exec (x :: xs) envp with _ | ge
      · rw [runCmds_cons_ok exec envp cmd t x xs hf hx] at hres ⊢
        rw [ih hres]
        simp [hf]
      · rw [runCmds_cons_fail exec envp cmd t x xs ge hf hx] at hres
        exact absurd hres (by simp)

/-- Helper: a failing phase decomposes as a succeeding non-blank run up to
the first failing command, whose wrapped error is returned and after which
nothing is launched. -/
theorem runCmds_some_decomp (exec : HookExec) (envp : List (String × String)) :
    ∀ (cmds : List String) (e : GoError), (runCmds exec envp cmds).2 = some e →
      ∃ pre cmd post ge, cmds = pre ++ cmd :: post ∧
        (∀ c2 ∈ pre, goFields c2 ≠ [] → exec (goFields c2) envp = none) ∧
        goFields cmd ≠ [] ∧
        exec (goFields cmd) envp = some ge ∧
        e = "hook " ++ cmd ++ " failed: " ++ ge ∧
        (runCmds exec envp cmds).1 =
          (pre.filter (fun c2 => !(goFields c2).isEmpty)).map goFields ++
            [goFields cmd] := by
  intro cmds
  induction cmds with
  | nil => intro e he; exact absurd he (by simp [runCmds])
  | cons cmd t ih =>
    intro e he
    rcases hf : goFields cmd with _ | ⟨x, xs⟩
    · rw [runCmds_cons_blank exec envp cmd t hf] at he
      obtain ⟨pre, c2, post, ge, hsplit, hpre, hne, hx, hew, htr⟩ := ih e he
      refine ⟨cmd :: pre, c2, post, ge, by simp [hsplit], ?_, hne, hx, hew, ?_⟩
      · intro c3 hc3 hne3
        rcases List.mem_cons.mp hc3 with rfl | hc3t
        · exact absurd hf hne3
        · exact hpre c3 hc3t hne3
      · rw [runCmds_cons_blank exec envp cmd t hf, htr]
        simp [hf]
    · rcases hx : exec (x :: xs) envp with _ | ge
      · rw [runCmds_cons_ok exec envp cmd t x xs hf hx] at he
        obtain ⟨pre, c2, post, ge2, hsplit, hpre, hne, hx2, hew, htr⟩ := ih e he
        refine ⟨cmd :: pre, c2, post, ge2, by simp [hsplit], ?_, hne, hx2, hew, ?_⟩
        · intro c3 hc3 hne3
          rcases List.mem_cons.mp hc3 with rfl | hc3t
          · rw [hf]; exact hx
          · exact hpre c3 hc3t hne3
        · rw [runCmds_cons_ok exec envp cmd t x xs hf hx, htr]
          simp [hf]
      · rw [runCmds_cons_fail exec envp cmd t x xs ge hf hx] at he
        simp only [Option.some.injEq] at he
        refine ⟨[], cmd, t, ge, rfl, by simp, by rw [hf]; exact List.cons_ne_nil x xs,
          by rw [hf]; exact hx, he.symm, ?_⟩
        rw [runCmds_cons_fail exec envp cmd t x xs ge hf hx, hf]
        simp

/-- **C8.**  For every enabled hook phase, the dispatcher runs the phase
commands strictly in list order, skips blank commands as successful no-ops,
and aborts at the first command whose launch fails or exits non-zero,
returning that command's wrapped error without launching any later command;
when every non-blank command succeeds (or the list is empty, or hooks are
globally disabled) it returns a nil error. -/
theorem c8_hooks_dispatch_spec (r : HooksRunner) (exec : HookExec)
    (envp : List (String × String)) (cmds : List String) :
    (r.enabled = false → ∀ ht, hooksRun r exec ht envp = ([], none)) ∧
    (r.enabled = true →
      hooksRun r exec "onStart" envp = runCmds exec envp r.onStart ∧
      hooksRun r exec "onIteration" envp = runCmds exec envp r.onIteration ∧
      hooksRun r exec "onComplete" envp = runCmds exec envp r.onComplete ∧
      hooksRun r exec "onFailure" envp = runCmds exec envp r.onFailure) ∧
    ((runCmds exec envp cmds).2 = none →
      (runCmds exec envp cmds).1 =
        (cmds.filter (fun c => !(goFields c).isEmpty)).map goFields ∧
      ∀ c ∈ cmds, goFields c ≠ [] → exec (goFields c) envp = none) ∧
    (∀ e, (runCmds exec envp cmds).2 = some e →
      ∃ pre cmd post ge, cmds = pre ++ cmd :: post ∧
        (∀ c2 ∈ pre, goFields c2 ≠ [] → exec (goFields c2) envp = none) ∧
        goFields cmd ≠ [] ∧
        exec (goFields cmd) envp = some ge ∧
        e = "hook " ++ cmd ++ " failed: " ++ ge ∧
        (runCmds exec envp cmds).1 =
          (pre.filter (fun c2 => !(goFields c2).isEmpty)).map goFields ++
            [goFields cmd]) ∧
    ((∀ c ∈ cmds, goFields c ≠ [] → exec (goFields c) envp = none) →
      (runCmds exec envp cmds).2 = none) := by
  refine ⟨?_, ?_, ?_, ?_, ?_⟩
  · intro hd ht
    simp [hooksRun, hd]
  · intro hd
    refine ⟨?_, ?_, ?_, ?_⟩ <;> simp [hooksRun, hd]
  · intro hres
    exact ⟨runCmds_none_trace exec envp cmds hres,
      (runCmds_none_iff exec envp cmds).mp hres⟩
  · intro e he
    exact runCmds_some_decomp exec envp cmds e he
  · intro hall
    exact (runCmds_none_iff exec envp cmds).mpr hall

/-- Witness for C8 on an enabled runner whose `onIteration` phase holds two
succeeding commands around a blank entry. -/
theorem c8_witness :
    (runCmds fxExecOk [] fxHooksOn.onIteration).2 = none ∧
    (runCmds fxExecOk [] fxHooksOn.onIteration).1 =
      (fxHooksOn.onIteration.filter (fun c => !(goFields c).isEmpty)).map goFields ∧
    hooksRun fxHooksOn fxExecOk "onIteration" [] =
      runCmds fxExecOk [] fxHooksOn.onIteration := by
  obtain ⟨-, hdisp, hnone, -, hok⟩ :=
    c8_hooks_dispatch_spec fxHooksOn fxExecOk [] fxHooksOn.onIteration
  have hres := hok (by decide)
  exact ⟨hres, (hnone hres).1, (hdisp rfl).2.1⟩

/-! ### Basic facts about the swap primitive -/

theorem lswap_length (l : List UserStory) (i j : Nat) :
    (lswap l i j).length = l.length := by
  unfold lswap
  rcases h1 : l.get? i with _ | x <;> rcases h2 : l.get? j with _ | y <;> simp

theorem get?_lswap_other (l : List UserStory) (i j k : Nat)
    (h1 : k ≠ i) (h2 : k ≠ j) : (lswap l i j).get? k = l.get? k := by
  unfold lswap
  rcases hx : l.get? i with _ | x
  · rfl
  · rcases hy : l.get? j with _ | y
    · rfl
    · rw [List.get?_set_ne _ _ (Ne.symm h2), List.get?_set_ne _ _ (Ne.symm h1)]

theorem getD_lswap_other (l : List UserStory) (i j k : Nat)
    (h1 : k ≠ i) (h2 : k ≠ j) :
    (lswap l i j).getD k dStory = l.getD k dStory := by
  rw [List.getD_eq_get?, List.getD_eq_get?, get?_lswap_other l i j k h1 h2]

theorem get?_eq_some_getD (l : List UserStory) (n : Nat) (h : n < l.length) :
    l.get? n = some (l.getD n dStory) := by
  rw [List.getD_eq_get?]
  rcases hx : l.get? n with _ | x
  · rw [List.get?_eq_none] at hx
    omega
  · rfl

theorem getD_lswap_fst (l : List UserStory) (i j : Nat)
    (hi : i < l.length) (hj : j < l.length) :
    (lswap l i j).getD i dStory = l.getD j dStory := by
  have hx := get?_eq_some_getD l i hi
  have hy := get?_eq_some_getD l j hj
  unfold lswap
  rw [hx, hy, List.getD_eq_get?]
  by_cases hij : i = j
  · subst hij
    rw [List.get?_set_eq, List.get?_set_eq, hx]
    rfl
  · rw [List.get?_set_ne _ _ (Ne.symm hij), List.get?_set_eq, hx]
    rfl

theorem getD_lswap_snd (l : List UserStory) (i j : Nat)
    (hi : i < l.length) (hj : j < l.length) :
    (lswap l i j).getD j dStory = l.getD i dStory := by
  have hx := get?_eq_some_getD l i hi
  have hy := get?_eq_some_getD l j hj
  unfold lswap
  rw [hx, hy, List.getD_eq_get?]
  by_cases hij : i = j
  · subst hij
    rw [List.get?_set_eq, List.get?_set_eq, hx]
    rfl
  · rw [List.get?_set_eq]
    have : (l.set i (l.getD j dStory)).get? j = l.get? j :=
      List.get?_set_ne _ _ hij
    rw [this, hy]
    rfl

/-! ### Length preservation through the pdqsort embedding -/

theorem isortInner_length (a : Nat) : ∀ (j : Nat) (l : List UserStory),
    (isortInner a l j).length = l.length := by
  intro j
  induction j with
  | zero => intro l; rfl
  | succ j ih =>
    intro l
    simp only [isortInner]
    split
    · rw [ih]
      exact lswap_length l _ _
    · rfl

theorem isortFrom_length (a b : Nat) : ∀ (fuel i : Nat) (l : List UserStory),
    (isortFrom a b fuel i l).length = l.length := by
  intro fuel
  induction fuel with
  | zero => intro i l; rfl
  | succ fuel ih =>
    intro i l
    simp only [isortFrom]
    split
    · rw [ih]
      exact isortInner_length a i l
    · rfl

theorem insertionSortGo_length (a b : Nat) (l : List UserStory) :
    (insertionSortGo a b l).length = l.length :=
  isortFrom_length a b b (a+1) l

theorem siftDownGo_length (first : Nat) : ∀ (fuel : Nat) (l : List UserStory)
    (root hi : Nat), (siftDownGo first fuel l root hi).length = l.length := by
  intro fuel
  induction fuel with
  | zero => intro l root hi; rfl
  | succ fuel ih =>
    intro l root hi
    simp only [siftDownGo]
    split
    · rfl
    · split <;> split <;> first
        | rfl
        | (rw [ih]; exact lswap_length l _ _)

theorem heapBuild_length (first hi : Nat) : ∀ (k : Nat) (l : List UserStory),
    (heapBuild first hi k l).length = l.length := by
  intro k
  induction k with
  | zero => intro l; rfl
  | succ k ih =>
    intro l
    rw [heapBuild, ih, siftDownGo_length]

theorem heapPop_length (first : Nat) : ∀ (k : Nat) (l : List UserStory),
    (heapPop first k l).length = l.length := by
  intro k
  induction k with
  | zero => intro l; rfl
  | succ k ih =>
    intro l
    rw [heapPop, ih, siftDownGo_length, lswap_length]

theorem heapSortGo_length (l : List UserStory) (a b : Nat) :
    (heapSortGo l a b).length = l.length := by
  unfold heapSortGo
  rw [heapPop_length, heapBuild_length]

theorem reverseRangeGo_length : ∀ (fuel : Nat) (l : List UserStory) (i j : Nat),
    (reverseRangeGo fuel l i j).length = l.length := by
  intro fuel
  induction fuel with
  | zero => intro l i j; rfl
  | succ fuel ih =>
    intro l i j
    simp only [reverseRangeGo]
    split
    · rw [ih, lswap_length]
    · rfl

theorem breakPatternsStep_length (a length modulus : Nat)
    (st : List UserStory × Nat) (i : Nat) :
    (breakPatternsStep a length modulus st i).1.length = st.1.length := by
  unfold breakPatternsStep
  exact lswap_length st.1 _ _

theorem breakPatternsGo_length (l : List UserStory) (a b : Nat) :
    (breakPatternsGo l a b).length = l.length := by
  simp only [breakPatternsGo]
  split
  · rw [breakPatternsStep_length, breakPatternsStep_length, breakPatternsStep_length]
  · rfl

theorem pisShiftLeft_length : ∀ (fuel : Nat) (l : List UserStory) (j : Nat),
    (pisShiftLeft fuel l j).length = l.length := by
  intro fuel
  induction fuel with
  | zero => intro l j; rfl
  | succ fuel ih =>
    intro l j
    simp only [pisShiftLeft]
    split
    · rw [ih, lswap_length]
    · rfl

theorem pisShiftRight_length (b : Nat) : ∀ (fuel : Nat) (l : List UserStory) (j : Nat),
    (pisShiftRight b fuel l j).length = l.length := by
  intro fuel
  induction fuel with
  | zero => intro l j; rfl
  | succ fuel ih =>
    intro l j
    simp only [pisShiftRight]
    split
    · rw [ih, lswap_length]
    · rfl

theorem pdqPartialInsertionSortLoop_length (a b : Nat) :
    ∀ (steps : Nat) (l : List UserStory) (i : Nat),
      (pdqPartialInsertionSortLoop a b steps l i).2.length = l.length := by
  intro steps
  induction steps with
  | zero => intro l i; rfl
  | succ steps ih =>
    intro l i
    simp only [pdqPartialInsertionSortLoop]
    split
    · rfl
    · split
      · rfl
      · rw [ih]
        split <;> split <;>
          simp [pisShiftRight_length, pisShiftLeft_length, lswap_length]

theorem pdqPartialInsertionSort_length (a b : Nat) (l : List UserStory) :
    (pdqPartialInsertionSort a b l).2.length = l.length :=
  pdqPartialInsertionSortLoop_length a b 5 l (a+1)

theorem partitionInner_length (aIdx b : Nat) :
    ∀ (fuel : Nat) (l : List UserStory) (i j : Nat),
      (partitionInner aIdx b fuel l i j).1.length = l.length := by
  intro fuel
  induction fuel with
  | zero => intro l i j; rfl
  | succ fuel ih =>
    intro l i j
    simp only [partitionInner]
    split
    · rfl
    · rw [ih, lswap_length]

theorem partitionGo_length (l : List UserStory) (a b pivot : Nat) :
    (partitionGo l a b pivot).1.length = l.length := by
  simp only [partitionGo]
  split
  · rw [lswap_length, lswap_length]
  · rw [lswap_length, partitionInner_length, lswap_length, lswap_length]

theorem partitionEqualInner_length (aIdx b : Nat) :
    ∀ (fuel : Nat) (l : List UserStory) (i j : Nat),
      (partitionEqualInner aIdx b fuel l i j).1.length = l.length := by
  intro fuel
  induction fuel with
  | zero => intro l i j; rfl
  | succ fuel ih =>
    intro l i j
    simp only [partitionEqualInner]
    split
    · rfl
    · rw [ih, lswap_length]

theorem partitionEqualGo_length (l : List UserStory) (a b pivot : Nat) :
    (partitionEqualGo l a b pivot).1.length = l.length := by
  simp only [partitionEqualGo]
  rw [partitionEqualInner_length, lswap_length]

set_option maxHeartbeats 2000000 in
theorem pdqsortGo_length :
    ∀ (fuel : Nat) (l : List UserStory) (a b limit : Nat) (wb wp : Bool),
      (pdqsortGo fuel l a b limit wb wp).length = l.length := by
  intro fuel
  induction fuel with
  | zero => intro l a b limit wb wp; rfl
  | succ fuel ih =>
    intro l a b limit wb wp
    simp only [pdqsortGo]
    split
    · exact insertionSortGo_length a b l
    · split
      · exact heapSortGo_length l a b
      · repeat' split
        all_goals simp [ih, partitionEqualGo_length, partitionGo_length,
          pdqPartialInsertionSort_length, reverseRangeGo_length,
          breakPatternsGo_length]

theorem sortSlice_length (l : List UserStory) : (sortSlice l).length = l.length :=
  pdqsortGo_length (l.length + 1) l 0 l.length (bitsLen l.length) true true

/-! ### Head characterization of the insertion sort path -/

theorem lessB_iff (l : List UserStory) (i j : Nat) :
    lessB l i j = true ↔ (l.getD i dStory).priority < (l.getD j dStory).priority := by
  simp [lessB]

/-- One sift of `insertionSort_func`'s inner loop, entered with the prefix
`l[0..j)` sorted: lengths and the suffix above `j` are preserved, the prefix
`l[0..j]` ends sorted and built from prefix elements, and the head becomes
the sifted element exactly when its priority strictly beats the old head. -/
theorem isortInner_spec : ∀ (j : Nat) (l : List UserStory), j < l.length → sortedUpTo l j →
    (isortInner 0 l j).length = l.length ∧
    (∀ k, j < k → (isortInner 0 l j).get? k = l.get? k) ∧
    sortedUpTo (isortInner 0 l j) (j+1) ∧
    ((isortInner 0 l j).getD 0 dStory =
      if (l.getD j dStory).priority < (l.getD 0 dStory).priority
      then l.getD j dStory else l.getD 0 dStory) ∧
    (∀ k, k ≤ j → ∃ k2, k2 ≤ j ∧ (isortInner 0 l j).getD k dStory = l.getD k2 dStory) := by
  intro j
  induction j with
  | zero =>
    intro l _ _
    refine ⟨rfl, fun k _ => rfl, ?_, ?_, ?_⟩
    · intro i1 j1 hij hj1
      have hi0 : i1 = 0 := by omega
      have hj0 : j1 = 0 := by omega
      subst hi0
      subst hj0
      exact le_refl _
    · rw [if_neg (lt_irrefl _)]
      rfl
    · intro k hk
      exact ⟨k, hk, rfl⟩
  | succ j ih =>
    intro l hlen hsort
    have hstep : isortInner 0 l (j+1) =
        if 0 ≤ j ∧ lessB l (j+1) j then isortInner 0 (lswap l (j+1) j) j else l := rfl
    by_cases hc : lessB l (j+1) j = true
    · rw [hstep, if_pos ⟨Nat.zero_le j, hc⟩]
      have hj1 : j + 1 < l.length := hlen
      have hj : j < l.length := by omega
      have hlen2 : (lswap l (j+1) j).length = l.length := lswap_length l (j+1) j
      have h2j : (lswap l (j+1) j).getD j dStory = l.getD (j+1) dStory :=
        getD_lswap_snd l (j+1) j hj1 hj
      have h2j1 : (lswap l (j+1) j).getD (j+1) dStory = l.getD j dStory :=
        getD_lswap_fst l (j+1) j hj1 hj
      have h2other : ∀ k, k ≠ j → k ≠ j + 1 →
          (lswap l (j+1) j).getD k dStory = l.getD k dStory :=
        fun k hkj hkj1 => getD_lswap_other l (j+1) j k hkj1 hkj
      have h2get : ∀ k, k ≠ j → k ≠ j + 1 →
          (lswap l (j+1) j).get? k = l.get? k :=
        fun k hkj hkj1 => get?_lswap_other l (j+1) j k hkj1 hkj
      have hsort2 : sortedUpTo (lswap l (j+1) j) j := by
        intro i1 j1 hij hj1b
        rw [h2other i1 (by omega) (by omega), h2other j1 (by omega) (by omega)]
        exact hsort i1 j1 hij (by omega)
      have hlt : (l.getD (j+1) dStory).priority < (l.getD j dStory).priority :=
        (lessB_iff l (j+1) j).mp hc
      obtain ⟨ilen, iq, isort, ihead, iT⟩ := ih (lswap l (j+1) j) (by omega) hsort2
      have hl3j1 : (isortInner 0 (lswap l (j+1) j) j).getD (j+1) dStory = l.getD j dStory := by
        rw [List.getD_eq_get?, iq (j+1) (by omega), ← List.getD_eq_get?, h2j1]
      refine ⟨?_, ?_, ?_, ?_, ?_⟩
      · rw [ilen, hlen2]
      · intro k hk
        rw [iq k (by omega), h2get k (by omega) (by omega)]
      · intro i1 j1 hij hj1b
        by_cases hj1j : j1 ≤ j
        · exact isort i1 j1 hij (by omega)
        · have hj1e : j1 = j + 1 := by omega
          subst hj1e
          rw [hl3j1]
          by_cases hi1 : i1 = j + 1
          · subst hi1
            rw [hl3j1]
          · obtain ⟨k2, hk2, hke⟩ := iT i1 (by omega)
            rw [hke]
            by_cases hk2j : k2 = j
            · subst hk2j
              rw [h2j]
              exact le_of_lt hlt
            · rw [h2other k2 hk2j (by omega)]
              exact hsort k2 j hk2 (by omega)
      · by_cases hj0 : j = 0
        · subst hj0
          show (isortInner 0 (lswap l 1 0) 0).getD 0 dStory = _
          have : isortInner 0 (lswap l 1 0) 0 = lswap l 1 0 := rfl
          rw [this, h2j, if_pos hlt]
        · rw [ihead, h2j, h2other 0 (Ne.symm hj0) (by omega)]
      · intro k hk
        by_cases hkj : k ≤ j
        · obtain ⟨k2, hk2, hke⟩ := iT k hkj
          by_cases hk2j : k2 = j
          · rw [hke, hk2j, h2j]
            exact ⟨j+1, le_refl _, rfl⟩
          · rw [hke, h2other k2 hk2j (by omega)]
            exact ⟨k2, by omega, rfl⟩
        · have hke : k = j + 1 := by omega
          subst hke
          rw [hl3j1]
          exact ⟨j, by omega, rfl⟩
    · rw [hstep, if_neg (fun h => hc h.2)]
      have hge : (l.getD j dStory).priority ≤ (l.getD (j+1) dStory).priority := by
        have hnot : ¬ (l.getD (j+1) dStory).priority < (l.getD j dStory).priority :=
          fun h => hc ((lessB_iff l (j+1) j).mpr h)
        omega
      refine ⟨rfl, fun k _ => rfl, ?_, ?_, fun k hk => ⟨k, hk, rfl⟩⟩
      · intro i1 j1 hij hj1b
        by_cases hj1j : j1 ≤ j
        · exact hsort i1 j1 hij (by omega)
        · have hj1e : j1 = j + 1 := by omega
          subst hj1e
          by_cases hi1 : i1 = j + 1
          · subst hi1
            exact le_refl _
          · exact le_trans (hsort i1 j (by omega) (by omega)) hge
      · have h0j : (l.getD 0 dStory).priority ≤ (l.getD j dStory).priority := by
          by_cases hj0 : j = 0
          · subst hj0
            exact le_refl _
          · exact hsort 0 j (Nat.zero_le j) (by omega)
        rw [if_neg (by omega)]

theorem drop_eq_of_get?_eq (l1 l2 : List UserStory) (n : Nat)
    (h : ∀ k, n ≤ k → l1.get? k = l2.get? k) :
    l1.drop n = l2.drop n := by
  apply List.ext_get?_iff.mpr
  intro m
  rw [List.get?_drop, List.get?_drop]
  exact h (n + m) (by omega)

theorem drop_eq_getD_cons (l : List UserStory) (i : Nat) (h : i < l.length) :
    l.drop i = l.getD i dStory :: l.drop (i+1) := by
  rw [List.drop_eq_get_cons h]
  congr 1
  rw [List.getD_eq_get?, List.get?_eq_get h]
  rfl

/-- `insertionSort_func`'s outer loop, entered at index `i` with the prefix
`l[0..i)` sorted, keeps the length and drives the head to the
first-minimum fold of the old head with the unprocessed tail. -/
theorem isortFrom_head (L : Nat) : ∀ (fuel i : Nat) (l : List UserStory),
    l.length = L → L ≤ fuel + i → 1 ≤ i → sortedUpTo l i →
    (isortFrom 0 L fuel i l).length = L ∧
    (isortFrom 0 L fuel i l).getD 0 dStory =
      firstMinAcc (l.getD 0 dStory) (l.drop i) := by
  intro fuel
  induction fuel with
  | zero =>
    intro i l hlen hle _ _
    have hdrop : l.drop i = [] := List.drop_eq_nil_of_le (by omega)
    rw [hdrop]
    exact ⟨hlen, rfl⟩
  | succ fuel ih =>
    intro i l hlen hle hi hsort
    by_cases hib : i < L
    · have hstep : isortFrom 0 L (fuel+1) i l = isortFrom 0 L fuel (i+1) (isortInner 0 l i) := by
        simp [isortFrom, hib]
      obtain ⟨ilen, iq, isort, ihead, -⟩ := isortInner_spec i l (by omega) hsort
      obtain ⟨flen, fhead⟩ := ih (i+1) (isortInner 0 l i) (by omega) (by omega) (by omega) isort
      have hdrop : (isortInner 0 l i).drop (i+1) = l.drop (i+1) :=
        drop_eq_of_get?_eq _ _ _ (fun k hk => iq k (by omega))
      rw [hstep]
      refine ⟨flen, ?_⟩
      rw [fhead, hdrop, ihead, drop_eq_getD_cons l i (by omega)]
      rfl
    · have hstep : isortFrom 0 L (fuel+1) i l = l := by
        simp [isortFrom, hib]
      have hdrop : l.drop i = [] := List.drop_eq_nil_of_le (by omega)
      rw [hstep, hdrop]
      exact ⟨hlen, rfl⟩

theorem firstMinAcc_mem (m : UserStory) : ∀ xs : List UserStory,
    firstMinAcc m xs = m ∨ firstMinAcc m xs ∈ xs := by
  intro xs
  induction xs generalizing m with
  | nil => exact Or.inl rfl
  | cons x t ih =>
    have hstep : firstMinAcc m (x :: t) =
        firstMinAcc (if x.priority < m.priority then x else m) t := rfl
    rcases ih (if x.priority < m.priority then x else m) with h | h
    · rw [hstep, h]
      by_cases hx : x.priority < m.priority
      · rw [if_pos hx]
        exact Or.inr (List.mem_cons_self x t)
      · rw [if_neg hx]
        exact Or.inl rfl
    · rw [hstep]
      exact Or.inr (List.mem_cons_of_mem x h)

theorem firstMinAcc_min (m : UserStory) : ∀ xs : List UserStory,
    (firstMinAcc m xs).priority ≤ m.priority ∧
    ∀ t ∈ xs, (firstMinAcc m xs).priority ≤ t.priority := by
  intro xs
  induction xs generalizing m with
  | nil => exact ⟨le_refl _, by simp⟩
  | cons x t ih =>
    obtain ⟨h1, h2⟩ := ih (if x.priority < m.priority then x else m)
    have hstep : firstMinAcc m (x :: t) =
        firstMinAcc (if x.priority < m.priority then x else m) t := rfl
    have hacc : (if x.priority < m.priority then x else m).priority ≤ m.priority := by
      by_cases hx : x.priority < m.priority
      · rw [if_pos hx]
        exact le_of_lt hx
      · rw [if_neg hx]
    have haccx : (if x.priority < m.priority then x else m).priority ≤ x.priority := by
      by_cases hx : x.priority < m.priority
      · rw [if_pos hx]
      · rw [if_neg hx]
        omega
    constructor
    · rw [hstep]
      exact le_trans h1 hacc
    · intro t2 ht2
      rcases List.mem_cons.mp ht2 with rfl | ht2t
      · rw [hstep]
        exact le_trans h1 haccx
      · rw [hstep]
        exact h2 t2 ht2t

theorem firstMinAcc_first (m : UserStory) : ∀ xs : List UserStory,
    (firstMinAcc m xs = m ∧ ∀ t ∈ xs, ¬ (t.priority < m.priority)) ∨
    (∃ k, xs.get? k = some (firstMinAcc m xs) ∧
      (firstMinAcc m xs).priority < m.priority ∧
      ∀ i, i < k → (firstMinAcc m xs).priority < (xs.getD i dStory).priority) := by
  intro xs
  induction xs generalizing m with
  | nil => exact Or.inl ⟨rfl, by simp⟩
  | cons x t ih =>
    by_cases hx : x.priority < m.priority
    · have hstep : firstMinAcc m (x :: t) = firstMinAcc x t := by
        show firstMinAcc (if x.priority < m.priority then x else m) t = _
        rw [if_pos hx]
      rcases ih x with ⟨heq, hall⟩ | ⟨k, hk, hlt, hbefore⟩
      · right
        refine ⟨0, ?_, ?_, ?_⟩
        · rw [hstep, heq]
          rfl
        · rw [hstep, heq]
          exact hx
        · intro i hi
          omega
      · right
        refine ⟨k+1, ?_, ?_, ?_⟩
        · rw [hstep]
          exact hk
        · rw [hstep]
          exact lt_trans hlt hx
        · intro i hi
          rcases i with _ | i2
          · rw [hstep]
            exact hlt
          · rw [hstep]
            exact hbefore i2 (by omega)
    · have hstep : firstMinAcc m (x :: t) = firstMinAcc m t := by
        show firstMinAcc (if x.priority < m.priority then x else m) t = _
        rw [if_neg hx]
      rcases ih m with ⟨heq, hall⟩ | ⟨k, hk, hlt, hbefore⟩
      · left
        refine ⟨by rw [hstep, heq], ?_⟩
        intro t2 ht2
        rcases List.mem_cons.mp ht2 with rfl | ht2t
        · exact hx
        · exact hall t2 ht2t
      · right
        refine ⟨k+1, ?_, ?_, ?_⟩
        · rw [hstep]
          exact hk
        · rw [hstep]
          exact hlt
        · intro i hi
          rcases i with _ | i2
          · rw [hstep]
            show (firstMinAcc m t).priority < x.priority
            omega
          · rw [hstep]
            exact hbefore i2 (by omega)

/-- With at most 12 elements, `sort.Slice` takes the insertion sort branch of
pdqsort. -/
theorem sortSlice_le12 (l : List UserStory) (h : l.length ≤ 12) :
    sortSlice l = insertionSortGo 0 l.length l := by
  unfold sortSlice
  simp [pdqsortGo, Nat.sub_zero, h]

theorem head?_eq_some_getD (l : List UserStory) (h : l ≠ []) :
    l.head? = some (l.getD 0 dStory) := by
  rcases l with _ | ⟨y, ys⟩
  · exact absurd rfl h
  · rfl

theorem mem_pendingStories_passes (p : PRD) (s : UserStory)
    (h : s ∈ p.pendingStories) : s.passes = false := by
  have := List.mem_filter.mp h
  simpa using this.2

/-- **C5 (amended).**  `NextStory` returns `none` exactly when no story is
pending.  Whenever between 1 and 12 stories are pending it returns a pending
story (its `passes` flag false) of minimal priority among the pending ones,
and on priority ties the one appearing earliest in the original list order.
With 13 or more pending stories the unstable `sort.Slice` may instead return
a later story among those tied at the minimal priority, as the
counterexample shows, so the tie-breaking guarantee does not hold in
general. -/
theorem c5_nextStory_spec (p : PRD) :
    (p.nextStory = none ↔ p.pendingStories = []) ∧
    (p.pendingStories ≠ [] → p.pendingStories.length ≤ 12 →
      ∃ s, p.nextStory = some s ∧
        s ∈ p.pendingStories ∧
        s.passes = false ∧
        (∀ t ∈ p.pendingStories, s.priority ≤ t.priority) ∧
        ∃ k, p.pendingStories.get? k = some s ∧
          ∀ i, i < k → s.priority < (p.pendingStories.getD i dStory).priority) := by
  constructor
  · show (if p.pendingStories.length = 0 then none
          else (sortSlice p.pendingStories).head?) = none ↔ _
    by_cases h : p.pendingStories.length = 0
    · rw [if_pos h]
      simp [List.length_eq_zero.mp h]
    · rw [if_neg h]
      constructor
      · intro hh
        exfalso
        have hlen := sortSlice_length p.pendingStories
        rcases hsl : sortSlice p.pendingStories with _ | ⟨y, ys⟩
        · rw [hsl] at hlen
          simp at hlen
          omega
        · rw [hsl] at hh
          exact absurd hh (by simp)
      · intro he
        rw [he] at h
        exact absurd rfl h
  · intro hne hlen12
    have hlen0 : p.pendingStories.length ≠ 0 := fun h => hne (List.length_eq_zero.mp h)
    obtain ⟨flen, fhead⟩ := isortFrom_head p.pendingStories.length p.pendingStories.length 1
      p.pendingStories rfl (by omega) (le_refl 1) (by
        intro i j hij hj
        have hi0 : i = 0 := by omega
        have hj0 : j = 0 := by omega
        subst hi0
        subst hj0
        exact le_refl _)
    have hins : insertionSortGo 0 p.pendingStories.length p.pendingStories =
        isortFrom 0 p.pendingStories.length p.pendingStories.length 1 p.pendingStories := rfl
    have hnext : p.nextStory =
        some (firstMinAcc (p.pendingStories.getD 0 dStory) (p.pendingStories.drop 1)) := by
      show (if p.pendingStories.length = 0 then none
            else (sortSlice p.pendingStories).head?) = _
      rw [if_neg hlen0, sortSlice_le12 _ hlen12, hins,
        head?_eq_some_getD _ (by
          intro h
          have h2 := congrArg List.length h
          rw [flen, List.length_nil] at h2
          exact hlen0 h2),
        fhead]
    rcases hpend : p.pendingStories with _ | ⟨x, xs⟩
    · exact absurd hpend hne
    have hgd0 : p.pendingStories.getD 0 dStory = x := by
      rw [hpend]
      rfl
    have hdrop1 : p.pendingStories.drop 1 = xs := by
      rw [hpend]
      rfl
    rw [hgd0, hdrop1] at hnext
    have hmem : firstMinAcc x xs ∈ x :: xs := by
      rcases firstMinAcc_mem x xs with h | h
      · rw [h]
        exact List.mem_cons_self x xs
      · exact List.mem_cons_of_mem x h
    have hmemP : firstMinAcc x xs ∈ p.pendingStories := by
      rw [hpend]
      exact hmem
    refine ⟨firstMinAcc x xs, hnext, hmem, mem_pendingStories_passes p _ hmemP, ?_, ?_⟩
    · intro t ht
      obtain ⟨h1, h2⟩ := firstMinAcc_min x xs
      rcases List.mem_cons.mp ht with rfl | htt
      · exact h1
      · exact h2 t htt
    · rcases firstMinAcc_first x xs with ⟨heq, -⟩ | ⟨k, hk, hlt, hbefore⟩
      · refine ⟨0, ?_, ?_⟩
        · rw [heq]
          rfl
        · intro i hi
          omega
      · refine ⟨k+1, hk, ?_⟩
        intro i hi
        rcases i with _ | i2
        · exact hlt
        · exact hbefore i2 (by omega)

/-- C5 counterexample: on this 13-pending-story PRD the two stories "S6" and
"S9" are tied at the minimal priority 1, "S6" comes first in list order, yet
`NextStory` returns "S9": the pdqsort partitioning step of `sort.Slice`
moves the chosen pivot (the later tied minimum) to the front. -/
theorem c5_counterexample :
    PRD.nextStory fxCE13 = some (pStory "S9" 1) ∧
    pStory "S6" 1 ∈ fxCE13.pendingStories ∧
    (∀ t ∈ fxCE13.pendingStories, (pStory "S9" 1).priority ≤ t.priority) ∧
    (pStory "S6" 1).priority = (pStory "S9" 1).priority ∧
    fxCE13.pendingStories.indexOf (pStory "S6" 1) <
      fxCE13.pendingStories.indexOf (pStory "S9" 1) := by
  decide

/-- Witness for C5 on the spec's `[3, 1, 2]` priority example. -/
theorem c5_witness :
    ∃ s, PRD.nextStory fxTie312 = some s ∧
      s ∈ fxTie312.pendingStories ∧
      s.passes = false ∧
      (∀ t ∈ fxTie312.pendingStories, s.priority ≤ t.priority) ∧
      ∃ k, fxTie312.pendingStories.get? k = some s ∧
        ∀ i, i < k → s.priority < (fxTie312.pendingStories.getD i dStory).priority :=
  (c5_nextStory_spec fxTie312).2 (by decide) (by decide)

end Ralph



